import Mathlib

set_option maxRecDepth 8000

/-!
Verification development for the InvoiceFlow backend
(invoice extraction normalization, strict schema validation,
cursor-based pagination).

JavaScript values are modeled by the inductive type JVal; JS numbers are
modeled as exact rationals (the repository only manipulates invoice
amounts and millisecond timestamps, far from any floating-point edge),
and JS strings as Lean strings operated on through their character
lists.  An object field bound to the JS value undefined is represented
by an explicit binding to JVal.undef, matching the JS distinction
between a key present with value undefined and property lookup on a
missing key (both read back as undefined, but the key counts as
present for key-membership tests).
-/

/-- Model of a JavaScript value (the payloads flowing through the
normalization layer are JSON values plus undefined). -/
inductive JVal where
  | undef : JVal
  | null : JVal
  | bool : Bool → JVal
  | num : ℚ → JVal
  | str : String → JVal
  | arr : List JVal → JVal
  | obj : List (String × JVal) → JVal

/-- Property lookup in an object field list: first binding wins, a
missing key reads as undefined. -/
def jLookup : List (String × JVal) → String → JVal
  | [], _ => JVal.undef
  | (k, x) :: rest, key => if k = key then x else jLookup rest key

/-- JS property access used by the source on records: on a non-object
it yields undefined (the call sites only index records, or values
whose lookups are guarded). -/
def jGet (v : JVal) (key : String) : JVal :=
  match v with
  | JVal.obj fields => jLookup fields key
  | _ => JVal.undef

/-- Embedding of isRecord from openai.ts: truthy, typeof object, not an
array.  Only object values qualify. -/
def JVal.isRecord : JVal → Bool
  | JVal.obj _ => true
  | _ => false

/-- Key membership in an object (the JS in-operator: a key bound to
undefined still counts as present). -/
def JVal.hasKey (v : JVal) (key : String) : Bool :=
  match v with
  | JVal.obj fields => fields.any (fun kv => kv.1 = key)
  | _ => false

/-- Whitespace recognized by the JS trim and Number conversions (the
common members of the WhiteSpace and LineTerminator productions). -/
def isJsWs (c : Char) : Bool :=
  c = ' ' || c = '\t' || c = '\n' || c = '\r' ||
  c = '\x0b' || c = '\x0c' || c = ' ' || c = '﻿'

/-- Both-ends whitespace trim on a character list. -/
def trimList (l : List Char) : List Char :=
  (((l.dropWhile isJsWs).reverse).dropWhile isJsWs).reverse

/-- Embedding of the JS String.prototype.trim used by getString. -/
def jsTrim (s : String) : String :=
  String.mk (trimList s.data)

/-- Key-alias scan of getString from openai.ts, after the record guard:
for each key in order, if the property is a string whose trim is
non-empty, that trimmed string wins. -/
def getStringGo (v : JVal) : List String → Option String
  | [] => none
  | k :: ks =>
    match jGet v k with
    | JVal.str s => if jsTrim s = "" then getStringGo v ks else some (jsTrim s)
    | _ => getStringGo v ks

/-- Embedding of getString from openai.ts.  The falsy-source guard and
property access on a non-record both resolve to undefined, so a
non-object source yields none for every key list. -/
def getString (source : JVal) (keys : List String) : Option String :=
  if source.isRecord then getStringGo source keys else none

/-- Digit-list value, most significant digit first. -/
def digitsVal (l : List Char) : ℕ :=
  l.foldl (fun a c => a * 10 + (c.toNat - '0'.toNat)) 0

/-- Exponent application for parseFloat: an exponent part only counts
when at least one digit follows the (optionally signed) marker;
otherwise it is not part of the longest valid prefix. -/
def parseFloatExpApply (q : ℚ) (sign : Bool) (l : List Char) : ℚ :=
  let ds := l.takeWhile Char.isDigit
  if ds = [] then q
  else if sign then q / 10 ^ digitsVal ds else q * 10 ^ digitsVal ds

/-- Optional exponent tail of parseFloat (e or E, optional sign,
digits); anything else is trailing garbage parseFloat ignores. -/
def parseFloatExp (q : ℚ) : List Char → ℚ
  | 'e' :: '-' :: r => parseFloatExpApply q true r
  | 'e' :: '+' :: r => parseFloatExpApply q false r
  | 'e' :: r => parseFloatExpApply q false r
  | 'E' :: '-' :: r => parseFloatExpApply q true r
  | 'E' :: '+' :: r => parseFloatExpApply q false r
  | 'E' :: r => parseFloatExpApply q false r
  | _ => q

/-- Unsigned mantissa of parseFloat: longest prefix of the form
digits, optional dot, digits; at least one digit overall, else NaN
(modeled as none). -/
def parseFloatMag (l : List Char) : Option ℚ :=
  let ip := l.takeWhile Char.isDigit
  let r1 := l.dropWhile Char.isDigit
  match r1 with
  | '.' :: r2 =>
    let fp := r2.takeWhile Char.isDigit
    let r3 := r2.dropWhile Char.isDigit
    if ip = [] && fp = [] then none
    else some (parseFloatExp ((digitsVal ip : ℚ) + (digitsVal fp : ℚ) / 10 ^ fp.length) r3)
  | _ =>
    if ip = [] then none
    else some (parseFloatExp ((digitsVal ip : ℚ)) r1)

/-- Embedding of Number.parseFloat on the strings reachable from
coerceNumber: leading whitespace skipped, optional sign, then the
longest decimal-literal prefix; none models NaN.  The Infinity literal
is unreachable here because coerceNumber strips letters first. -/
def jsParseFloat (s : String) : Option ℚ :=
  match s.data.dropWhile isJsWs with
  | '-' :: rest => (parseFloatMag rest).map Neg.neg
  | '+' :: rest => parseFloatMag rest
  | l => parseFloatMag l

/-- Character class kept by the strip in coerceNumber: digits, period,
comma, minus. -/
def numKeepChar (c : Char) : Bool :=
  c.isDigit || c = '.' || c = ',' || c = '-'

/-- The strip step of coerceNumber: remove every character outside the
digits, period, comma, minus class. -/
def stripNumChars (s : String) : String :=
  String.mk (s.data.filter numKeepChar)

/-- The comma replacement in coerceNumber: a string-pattern JS replace
rewrites only the first occurrence. -/
def replaceFirstComma : List Char → List Char
  | [] => []
  | c :: rest => if c = ',' then '.' :: rest else c :: replaceFirstComma rest

/-- Embedding of coerceNumber from openai.ts.  Native numbers pass
through (JSON numbers are always finite, and rationals model them
exactly); strings are stripped, first comma replaced by a period, then
parsed with parseFloat; everything else is absent. -/
def coerceNumber : JVal → Option ℚ
  | JVal.num q => some q
  | JVal.str s => jsParseFloat (String.mk (replaceFirstComma (stripNumChars s).data))
  | _ => none

/-- Key-alias scan of getNumber from openai.ts after the record guard. -/
def getNumberGo (v : JVal) : List String → Option ℚ
  | [] => none
  | k :: ks =>
    match coerceNumber (jGet v k) with
    | some q => some q
    | none => getNumberGo v ks

/-- Embedding of getNumber from openai.ts; as with getString, a
non-object source resolves to none. -/
def getNumber (source : JVal) (keys : List String) : Option ℚ :=
  if source.isRecord then getNumberGo source keys else none

/-- Character class of the spec sentence for numeric coercion: digits,
comma, period, and minus sign. -/
def specNumKeepChar (c : Char) : Bool :=
  ('0' ≤ c && c ≤ '9') || c = ',' || c = '.' || c = '-'

/-- Strip step as the spec words it: remove all characters except
digits, comma, period, and minus sign. -/
def specStrip (s : String) : String :=
  String.mk (s.data.filter specNumKeepChar)

/-- Replacement of the first comma by a period, written independently
through a takeWhile/dropWhile decomposition of the character list. -/
def replaceFirstCommaSpan (l : List Char) : List Char :=
  match l.dropWhile (fun c => c != ',') with
  | _ :: b => l.takeWhile (fun c => c != ',') ++ '.' :: b
  | [] => l.takeWhile (fun c => c != ',')

/-- Conversion of a trailing comma to a decimal point, reading the
claim as: the last comma of the stripped string becomes the decimal
point. -/
def specConvertTrailingComma (l : List Char) : List Char :=
  (replaceFirstCommaSpan l.reverse).reverse

/-- Numeric coercion exactly as the claim for C2 words it: native
finite numbers pass, strings are stripped to the digits/comma/period/
minus class, a trailing comma becomes a decimal point, the result is
parsed as a floating-point number, and parse failures are absent. -/
def coerceNumberClaimC2 : JVal → Option ℚ
  | JVal.num q => some q
  | JVal.str s => jsParseFloat (String.mk (specConvertTrailingComma (specStrip s).data))
  | _ => none

/-- Numeric coercion as the claim must be amended: the replacement
rewrites the first comma of the stripped string, not the trailing
one. -/
def coerceNumberAmendedC2 : JVal → Option ℚ
  | JVal.num q => some q
  | JVal.str s => jsParseFloat (String.mk (replaceFirstCommaSpan (specStrip s).data))
  | _ => none

theorem charLeVal (a b : Char) : a ≤ b ↔ a.val ≤ b.val := Iff.rfl

theorem specNumKeepChar_eq (c : Char) : specNumKeepChar c = numKeepChar c := by
  rw [Bool.eq_iff_iff]
  simp only [specNumKeepChar, numKeepChar, Char.isDigit, Bool.or_eq_true,
    Bool.and_eq_true, decide_eq_true_eq, ge_iff_le, charLeVal]
  have h0 : ('0' : Char).val = 48 := by decide
  have h9 : ('9' : Char).val = 57 := by decide
  rw [h0, h9]
  tauto

theorem c2_helper_strip_eq (s : String) : specStrip s = stripNumChars s := by
  simp only [specStrip, stripNumChars]
  congr 1
  exact List.filter_congr (fun c _ => specNumKeepChar_eq c)

theorem replaceFirstCommaSpan_eq (l : List Char) :
    replaceFirstCommaSpan l = replaceFirstComma l := by
  induction l with
  | nil => rfl
  | cons c rest ih =>
    by_cases hc : c = ','
    · subst hc
      simp [replaceFirstCommaSpan, replaceFirstComma, List.dropWhile, List.takeWhile]
    · have hbne : (c != ',') = true := by simp [hc]
      simp only [replaceFirstCommaSpan, replaceFirstComma, List.dropWhile, List.takeWhile,
        hbne, if_neg hc] at *
      match hrest : List.dropWhile (fun c => c != ',') rest with
      | [] => simp [hrest] at ih ⊢; exact ih
      | _ :: b => simp [hrest] at ih ⊢; exact ih

/-- C2 counterexample: on the stripped string 12,3,4 the code rewrites
the FIRST comma (yielding 12.3,4, parsed as 12.3) while the claimed
trailing-comma rule yields 12,3.4, parsed as 12; so coerceNumber does
not implement the claimed rule. -/
theorem c2_counterexample :
    coerceNumber (JVal.str "12,3,4") = some (123 / 10 : ℚ) ∧
    coerceNumberClaimC2 (JVal.str "12,3,4") = some (12 : ℚ) ∧
    coerceNumber (JVal.str "12,3,4") ≠ coerceNumberClaimC2 (JVal.str "12,3,4") := by
  refine ⟨?_, ?_, ?_⟩ <;> with_unfolding_all decide

/-- C2 amended: numeric coercion accepts native finite numbers
directly; for strings it strips all characters except digits, comma,
period, and minus sign, converts the FIRST comma (not a trailing one)
to a decimal point, then parses the result with parseFloat; values
that fail to parse are treated as absent.  In particular the behavior
on locale-style strings such as 1.234,56 is deterministic and follows
this rule. -/
theorem c2_coerce_number_first_comma_rule (v : JVal) :
    coerceNumber v = coerceNumberAmendedC2 v := by
  cases v with
  | str s =>
    simp only [coerceNumber, coerceNumberAmendedC2, c2_helper_strip_eq,
      replaceFirstCommaSpan_eq]
  | undef => rfl
  | null => rfl
  | bool b => rfl
  | num q => rfl
  | arr xs => rfl
  | obj fields => rfl

/-- Canonical line item produced by normalizeLineItem (the JS object
literal with keys description, quantity, unitPrice, amount,
category). -/
structure CandItem where
  description : String
  quantity : ℚ
  unitPrice : ℚ
  amount : ℚ
  category : Option String
  deriving DecidableEq

/-- Description resolution of normalizeLineItem (alias scan with empty
fallback). -/
def liDescription (v : JVal) : String :=
  (getString v ["description", "name", "item", "line_description", "product"]).getD ""

/-- Quantity resolution of normalizeLineItem: quantity/qty aliases,
then hours, then the default 1. -/
def liQuantity (v : JVal) : ℚ :=
  match getNumber v ["quantity", "qty"] with
  | some q => q
  | none =>
    match getNumber v ["hours"] with
    | some q => q
    | none => 1

/-- Unit-price resolution of normalizeLineItem. -/
def liUnitPrice (v : JVal) : Option ℚ :=
  getNumber v ["unit_price", "unitPrice", "price"]

/-- Amount resolution of normalizeLineItem: explicit amount aliases
first, otherwise unitPrice times quantity when a unit price resolved
(the quantity is always defined thanks to its default). -/
def liAmount (v : JVal) : Option ℚ :=
  match getNumber v ["amount", "total", "line_total"] with
  | some a => some a
  | none =>
    match liUnitPrice v with
    | some p => some (p * liQuantity v)
    | none => none

/-- Embedding of normalizeLineItem from openai.ts: non-records are
dropped; after resolution the item is dropped when the description is
empty OR no amount resolved; otherwise the canonical item is built,
with unitPrice defaulting to the amount. -/
def normalizeLineItem (v : JVal) : Option CandItem :=
  if v.isRecord then
    match liAmount v with
    | none => none
    | some a =>
      if liDescription v = "" then none
      else
        some { description := liDescription v, quantity := liQuantity v,
               unitPrice := (liUnitPrice v).getD a, amount := a,
               category := getString v ["category", "gl_code"] }
  else none

/-- C5 counterexample: the raw line item with only a description,
description Widget, has a non-empty description, yet normalization
drops it (because no amount resolves); the claim says an item with a
non-empty description is kept. -/
theorem c5_counterexample :
    normalizeLineItem (JVal.obj [("description", JVal.str "Widget")]) = none ∧
    liDescription (JVal.obj [("description", JVal.str "Widget")]) = "Widget" := by
  refine ⟨?_, ?_⟩ <;> with_unfolding_all decide

/-- C5 amended: a raw line item is dropped exactly when it is not an
object, or its resolved description is empty, or no amount is
resolvable (explicitly or as unitPrice times quantity); it is kept
only when it has BOTH a non-empty description AND a resolvable
amount. -/
theorem c5_line_item_drop_iff (v : JVal) :
    normalizeLineItem v = none ↔
      (v.isRecord = false ∨ liDescription v = "" ∨ liAmount v = none) := by
  by_cases hr : v.isRecord = true
  · rw [normalizeLineItem]
    match h : liAmount v with
    | none => simp [h, hr]
    | some a =>
      by_cases hd : liDescription v = ""
      · simp [hd, hr, h]
      · simp [hd, hr, h]
  · have hr2 : v.isRecord = false := by
      revert hr
      cases v.isRecord <;> simp
    simp [normalizeLineItem, hr2]

/-- C5 witness: a concrete item with a non-empty description and an
explicit amount is kept (the drop condition is false). -/
theorem c5_witness :
    normalizeLineItem
        (JVal.obj [("description", JVal.str "Widget"), ("amount", JVal.num 5)]) ≠ none := by
  rw [Ne, c5_line_item_drop_iff]
  with_unfolding_all decide

/-- C6 counterexample: the featured raw line item with unitPrice 10
and quantity 3 but no amount field yields NO normalized line item at
all (it is dropped for lack of a description), not one with amount
30. -/
theorem c6_counterexample :
    normalizeLineItem (JVal.obj [("unitPrice", JVal.num 10), ("quantity", JVal.num 3)]) =
      none := by
  with_unfolding_all decide

/-- C6 amended: for a raw line item that is kept (it is an object with
a non-empty resolved description), when no amount field is resolvable
and a unit price is resolvable, the normalized amount is the unit
price times the resolved quantity (the quantity defaulting to 1 when
absent); the featured item must also carry a non-empty description for
any amount to be produced. -/
theorem c6_amount_from_unit_price (v : JVal) (p : ℚ)
    (hr : v.isRecord = true)
    (hd : liDescription v ≠ "")
    (ha : getNumber v ["amount", "total", "line_total"] = none)
    (hp : liUnitPrice v = some p) :
    (normalizeLineItem v).map CandItem.amount = some (p * liQuantity v) := by
  have hamt : liAmount v = some (p * liQuantity v) := by
    rw [liAmount, ha, hp]
  rw [normalizeLineItem, hr]
  simp [hamt, hd]

/-- C6 witness: the featured item augmented with a description
normalizes to amount 30. -/
theorem c6_witness :
    (normalizeLineItem
        (JVal.obj [("description", JVal.str "x"), ("unitPrice", JVal.num 10),
          ("quantity", JVal.num 3)])).map CandItem.amount = some (30 : ℚ) := by
  have h := c6_amount_from_unit_price
    (JVal.obj [("description", JVal.str "x"), ("unitPrice", JVal.num 10),
      ("quantity", JVal.num 3)]) 10
    (by with_unfolding_all decide)
    (by with_unfolding_all decide)
    (by with_unfolding_all decide)
    (by with_unfolding_all decide)
  refine h.trans ?_
  with_unfolding_all decide

theorem trimList_eq_rdrop (l : List Char) :
    trimList l = List.rdropWhile isJsWs (List.dropWhile isJsWs l) := rfl

theorem trimList_idem (l : List Char) : trimList (trimList l) = trimList l := by
  rw [trimList_eq_rdrop, trimList_eq_rdrop]
  have hstep1 : List.dropWhile isJsWs (List.rdropWhile isJsWs (List.dropWhile isJsWs l)) =
      List.rdropWhile isJsWs (List.dropWhile isJsWs l) := by
    cases hr : List.rdropWhile isJsWs (List.dropWhile isJsWs l) with
    | nil => simp
    | cons r0 rtail =>
      obtain ⟨t, ht⟩ := List.rdropWhile_prefix (p := isJsWs) (l := List.dropWhile isJsWs l)
      rw [hr] at ht
      have h2 := List.head?_dropWhile_not isJsWs l
      rw [← ht] at h2
      simp only [List.cons_append, List.head?_cons] at h2
      simp [List.dropWhile_cons, h2]
  have hstep2 : List.rdropWhile isJsWs (List.rdropWhile isJsWs (List.dropWhile isJsWs l)) =
      List.rdropWhile isJsWs (List.dropWhile isJsWs l) := by
    rw [List.rdropWhile_eq_self_iff]
    intro hl
    exact List.rdropWhile_last_not (p := isJsWs) (l := List.dropWhile isJsWs l) hl
  rw [hstep1, hstep2]

theorem jsTrim_idem (s : String) : jsTrim (jsTrim s) = jsTrim s := by
  simp [jsTrim, trimList_idem]

/-- A string is in trimmed non-empty form (the shape every getString
result and every normalization string default has). -/
def wfStr (s : String) : Bool :=
  (jsTrim s == s) && !(s == "")

theorem wfStr_iff (s : String) : wfStr s = true ↔ (jsTrim s = s ∧ s ≠ "") := by
  simp [wfStr]

theorem wfStr_jsTrim_of_ne (s : String) (h : jsTrim s ≠ "") : wfStr (jsTrim s) = true := by
  rw [wfStr_iff]
  exact ⟨jsTrim_idem s, h⟩

/-- Optional-string well-formedness. -/
def wfOptStr : Option String → Bool
  | none => true
  | some s => wfStr s

theorem getStringGo_wf (v : JVal) (keys : List String) (s : String)
    (h : getStringGo v keys = some s) : wfStr s = true := by
  induction keys with
  | nil => simp [getStringGo] at h
  | cons k ks ih =>
    rw [getStringGo] at h
    cases hv : jGet v k with
    | str t =>
      simp only [hv] at h
      by_cases ht : jsTrim t = ""
      · rw [if_pos ht] at h
        exact ih h
      · rw [if_neg ht] at h
        cases h
        exact wfStr_jsTrim_of_ne t ht
    | undef => simp only [hv] at h; exact ih h
    | null => simp only [hv] at h; exact ih h
    | bool b => simp only [hv] at h; exact ih h
    | num q => simp only [hv] at h; exact ih h
    | arr xs => simp only [hv] at h; exact ih h
    | obj fields => simp only [hv] at h; exact ih h

theorem getString_wf (src : JVal) (keys : List String) (s : String)
    (h : getString src keys = some s) : wfStr s = true := by
  rw [getString] at h
  by_cases hr : src.isRecord = true
  · rw [if_pos (by simp [hr])] at h
    exact getStringGo_wf src keys s h
  · rw [if_neg (by simp_all)] at h
    cases h

/-- JS nullish coalescing on optional values (a ?? b). -/
def jsOr {α : Type} : Option α → Option α → Option α
  | some x, _ => some x
  | none, b => b

/-- Invoice-source resolution from openai.ts: the invoice object, else
the billing object, else empty. -/
def resolveInvoiceSource (input : JVal) : JVal :=
  if (jGet input "invoice").isRecord then jGet input "invoice"
  else if (jGet input "billing").isRecord then jGet input "billing"
  else JVal.obj []

/-- Assignment-source resolution from openai.ts: the assignment
object, else the bill_to object, else empty. -/
def resolveAssignmentSource (input : JVal) : JVal :=
  if (jGet input "assignment").isRecord then jGet input "assignment"
  else if (jGet input "bill_to").isRecord then jGet input "bill_to"
  else JVal.obj []

/-- Array test used by resolveLineItems (Array.isArray). -/
def asArray : JVal → Option (List JVal)
  | JVal.arr xs => some xs
  | _ => none

/-- Line-item source resolution from openai.ts: invoice.lineItems,
invoice.line_items, root lineItems, root line_items, else empty. -/
def resolveLineItems (invoiceSource input : JVal) : List JVal :=
  match asArray (jGet invoiceSource "lineItems") with
  | some xs => xs
  | none =>
    match asArray (jGet invoiceSource "line_items") with
    | some xs => xs
    | none =>
      match asArray (jGet input "lineItems") with
      | some xs => xs
      | none =>
        match asArray (jGet input "line_items") with
        | some xs => xs
        | none => []

/-- Canonical candidate produced by normalizeExtractionPayload on a
record input: the fields of the object literal the source returns.
The aiEnhancements block passes through as an arbitrary object when
the input carried one. -/
structure Candidate where
  vendorName : String
  vendorTaxId : Option String
  vendorAddress : Option String
  vendorEmail : Option String
  vendorPhone : Option String
  invoiceNumber : String
  invoiceDate : String
  invoiceDueDate : Option String
  invoiceCurrency : String
  invoiceSubtotal : Option ℚ
  invoiceTaxAmount : Option ℚ
  invoiceTotalAmount : Option ℚ
  assignDepartment : Option String
  assignEmployee : Option String
  assignCostCenter : Option String
  lineItems : List CandItem
  aiEnhancements : Option (List (String × JVal))

/-- Field computation of normalizeExtractionPayload from openai.ts for
a record input; today stands for the current date string the source
computes with new Date (an ISO day). -/
def normalizeCore (today : String) (input : JVal) : Candidate :=
  let vendorSource := if (jGet input "vendor").isRecord then jGet input "vendor" else JVal.obj []
  let invoiceSource := resolveInvoiceSource input
  let assignmentSource := resolveAssignmentSource input
  { vendorName := (getString vendorSource ["name", "vendor_name", "company"]).getD "Unknown Vendor",
    vendorTaxId := getString vendorSource
      ["taxId", "tax_id", "tax_id_number", "vat_number", "vatNumber"],
    vendorAddress := getString vendorSource ["address", "street"],
    vendorEmail := getString vendorSource ["email", "contact_email"],
    vendorPhone := getString vendorSource ["phone", "phone_number"],
    invoiceNumber := (jsOr (getString invoiceSource ["number", "invoice_number", "id"])
      (getString input ["invoice_number"])).getD "UNKNOWN",
    invoiceDate := (jsOr (getString invoiceSource
      ["date", "issue_date", "invoice_date", "created_at"])
      (getString input ["issue_date"])).getD today,
    invoiceDueDate := jsOr (getString invoiceSource ["dueDate", "due_date", "payment_due"])
      (getString input ["due_date"]),
    invoiceCurrency := (jsOr (getString invoiceSource ["currency"])
      (getString input ["currency"])).getD "USD",
    invoiceSubtotal := getNumber invoiceSource ["subtotal", "sub_total", "amount_subtotal"],
    invoiceTaxAmount := getNumber invoiceSource ["taxAmount", "tax", "vat"],
    invoiceTotalAmount := jsOr (getNumber invoiceSource
      ["totalAmount", "total", "total_due", "amount_due", "balance_due"])
      (getNumber input ["total_due", "amount_due"]),
    assignDepartment := getString assignmentSource ["department", "department_name"],
    assignEmployee := jsOr (getString assignmentSource ["employee", "employee_name", "name"])
      (getString (jGet input "bill_to") ["name"]),
    assignCostCenter := getString assignmentSource ["costCenter", "cost_center"],
    lineItems := (resolveLineItems invoiceSource input).filterMap normalizeLineItem,
    aiEnhancements := match jGet input "aiEnhancements" with
      | JVal.obj fields => some fields
      | _ => none }

/-- Optional string as a JS object-field value (undefined when
absent). -/
def optStrJ : Option String → JVal
  | some s => JVal.str s
  | none => JVal.undef

/-- Optional number as a JS object-field value. -/
def optNumJ : Option ℚ → JVal
  | some q => JVal.num q
  | none => JVal.undef

/-- The object literal a kept line item becomes. -/
def CandItem.toJVal (it : CandItem) : JVal :=
  JVal.obj [("description", JVal.str it.description),
    ("quantity", JVal.num it.quantity),
    ("unitPrice", JVal.num it.unitPrice),
    ("amount", JVal.num it.amount),
    ("category", optStrJ it.category)]

/-- The object literal normalizeExtractionPayload returns for a record
input. -/
def Candidate.toJVal (c : Candidate) : JVal :=
  JVal.obj [
    ("vendor", JVal.obj [("name", JVal.str c.vendorName),
      ("taxId", optStrJ c.vendorTaxId),
      ("address", optStrJ c.vendorAddress),
      ("email", optStrJ c.vendorEmail),
      ("phone", optStrJ c.vendorPhone)]),
    ("invoice", JVal.obj [("number", JVal.str c.invoiceNumber),
      ("date", JVal.str c.invoiceDate),
      ("dueDate", optStrJ c.invoiceDueDate),
      ("currency", JVal.str c.invoiceCurrency),
      ("subtotal", optNumJ c.invoiceSubtotal),
      ("taxAmount", optNumJ c.invoiceTaxAmount),
      ("totalAmount", optNumJ c.invoiceTotalAmount)]),
    ("assignment", JVal.obj [("department", optStrJ c.assignDepartment),
      ("employee", optStrJ c.assignEmployee),
      ("costCenter", optStrJ c.assignCostCenter)]),
    ("lineItems", JVal.arr (c.lineItems.map CandItem.toJVal)),
    ("aiEnhancements", match c.aiEnhancements with
      | some fields => JVal.obj fields
      | none => JVal.undef)]

/-- Embedding of normalizeExtractionPayload from openai.ts: non-record
inputs map to the empty object, record inputs to the canonical object
literal. -/
def normalizeExtractionPayload (today : String) (input : JVal) : JVal :=
  if input.isRecord then (normalizeCore today input).toJVal else JVal.obj []

/-- Conjunction of the five canonical output keys from the claim for
C4. -/
def hasFiveKeys (v : JVal) : Bool :=
  v.hasKey "vendor" && v.hasKey "invoice" && v.hasKey "assignment" &&
    v.hasKey "lineItems" && v.hasKey "aiEnhancements"

/-- C4 counterexample: on the (JSON) input null, normalization returns
the empty object, which contains none of the five keys, contradicting
the claim that the result carries all five keys for every JSON
input. -/
theorem c4_counterexample :
    normalizeExtractionPayload "2024-05-01" JVal.null = JVal.obj [] ∧
    hasFiveKeys (normalizeExtractionPayload "2024-05-01" JVal.null) = false := by
  refine ⟨rfl, ?_⟩
  with_unfolding_all decide

/-- C4 amended: normalization is a total function (it never throws),
and for every RECORD input its result is an object containing all five
keys vendor, invoice, assignment, lineItems, and aiEnhancements; for a
non-record JSON value (null, array, string, number, boolean) it
returns the empty object instead. -/
theorem c4_five_keys_of_record (today : String) (v : JVal) (hr : v.isRecord = true) :
    hasFiveKeys (normalizeExtractionPayload today v) = true := by
  rw [normalizeExtractionPayload, hr]
  simp only [if_true]
  with_unfolding_all rfl

/-- C4 witness: the empty-object record input gets all five keys. -/
theorem c4_witness :
    hasFiveKeys (normalizeExtractionPayload "2024-05-01" (JVal.obj [])) = true :=
  c4_five_keys_of_record "2024-05-01" (JVal.obj []) rfl

/-- Line-item string fields are trimmed and, for the description,
non-empty (every kept item has this shape). -/
def CandItem.wf (it : CandItem) : Bool :=
  wfStr it.description && wfOptStr it.category

/-- String fields of a canonical candidate are trimmed non-empty
strings (or absent); this is the shape normalizeExtractionPayload
always produces. -/
def Candidate.wf (c : Candidate) : Bool :=
  wfStr c.vendorName && wfOptStr c.vendorTaxId && wfOptStr c.vendorAddress &&
    wfOptStr c.vendorEmail && wfOptStr c.vendorPhone && wfStr c.invoiceNumber &&
    wfStr c.invoiceDate && wfOptStr c.invoiceDueDate && wfStr c.invoiceCurrency &&
    wfOptStr c.assignDepartment && wfOptStr c.assignEmployee && wfOptStr c.assignCostCenter &&
    c.lineItems.all CandItem.wf

theorem wfOptStr_getString (src : JVal) (keys : List String) :
    wfOptStr (getString src keys) = true := by
  cases h : getString src keys with
  | none => rfl
  | some s => exact getString_wf src keys s h

theorem wfOptStr_jsOr (a b : Option String) (ha : wfOptStr a = true) (hb : wfOptStr b = true) :
    wfOptStr (jsOr a b) = true := by
  cases a with
  | some s => exact ha
  | none => exact hb

theorem wfStr_getD (o : Option String) (d : String) (ho : wfOptStr o = true)
    (hd : wfStr d = true) : wfStr (o.getD d) = true := by
  cases o with
  | some s => exact ho
  | none => exact hd

theorem normalizeLineItem_wf (v : JVal) (it : CandItem)
    (h : normalizeLineItem v = some it) : it.wf = true := by
  rw [normalizeLineItem] at h
  by_cases hr : v.isRecord = true
  · rw [hr] at h
    simp only [if_true] at h
    match ha : liAmount v with
    | none => rw [ha] at h; cases h
    | some a =>
      rw [ha] at h
      simp only [] at h
      by_cases hd : liDescription v = ""
      · rw [if_pos hd] at h; cases h
      · rw [if_neg hd] at h
        cases h
        have hdesc : wfStr (liDescription v) = true := by
          rw [liDescription]
          cases hgs : getString v ["description", "name", "item", "line_description", "product"] with
          | none => simp [hgs] at hd ⊢; exact absurd (by simp [liDescription, hgs]) hd
          | some s =>
            have := getString_wf _ _ _ hgs
            simpa [hgs] using this
        have hcat : wfOptStr (getString v ["category", "gl_code"]) = true :=
          wfOptStr_getString _ _
        simp [CandItem.wf, hdesc, hcat]
  · have : v.isRecord = false := by revert hr; cases v.isRecord <;> simp
    rw [this] at h
    simp at h

theorem normalizeCore_wf (today : String) (input : JVal) (ht : wfStr today = true) :
    (normalizeCore today input).wf = true := by
  rw [normalizeCore]
  simp only [Candidate.wf, Bool.and_eq_true]
  repeat' apply And.intro
  all_goals first
    | exact wfOptStr_getString _ _
    | exact wfOptStr_jsOr _ _ (wfOptStr_getString _ _) (wfOptStr_getString _ _)
    | exact wfStr_getD _ _ (wfOptStr_getString _ _) (by with_unfolding_all decide)
    | exact wfStr_getD _ _ (wfOptStr_jsOr _ _ (wfOptStr_getString _ _) (wfOptStr_getString _ _))
        (by with_unfolding_all decide)
    | exact wfStr_getD _ _ (wfOptStr_jsOr _ _ (wfOptStr_getString _ _) (wfOptStr_getString _ _)) ht
    | (rw [List.all_eq_true]
       intro it hit
       obtain ⟨x, hx, hnx⟩ := List.mem_filterMap.mp hit
       exact normalizeLineItem_wf x it hnx)

theorem normalizeLineItem_toJVal_fix (it : CandItem) (h : it.wf = true) :
    normalizeLineItem it.toJVal = some it := by
  obtain ⟨d, q, up, am, cat⟩ := it
  simp only [CandItem.wf, Bool.and_eq_true] at h
  obtain ⟨hd, hcat⟩ := h
  rw [wfStr_iff] at hd
  have hamt : liAmount (CandItem.toJVal ⟨d, q, up, am, cat⟩) = some am := by
    simp [liAmount, CandItem.toJVal, getNumber, getNumberGo, jGet, jLookup, coerceNumber,
      JVal.isRecord]
  have hdesc : liDescription (CandItem.toJVal ⟨d, q, up, am, cat⟩) = d := by
    simp [liDescription, CandItem.toJVal, getString, getStringGo, jGet, jLookup,
      JVal.isRecord, hd.1, hd.2]
  have hqty : liQuantity (CandItem.toJVal ⟨d, q, up, am, cat⟩) = q := by
    simp [liQuantity, CandItem.toJVal, getNumber, getNumberGo, jGet, jLookup, coerceNumber,
      JVal.isRecord]
  have hup : liUnitPrice (CandItem.toJVal ⟨d, q, up, am, cat⟩) = some up := by
    simp [liUnitPrice, CandItem.toJVal, getNumber, getNumberGo, jGet, jLookup, coerceNumber,
      JVal.isRecord]
  have hcat2 : getString (CandItem.toJVal ⟨d, q, up, am, cat⟩) ["category", "gl_code"] = cat := by
    cases cat with
    | none =>
      simp [CandItem.toJVal, getString, getStringGo, jGet, jLookup, JVal.isRecord, optStrJ]
    | some s =>
      rw [wfOptStr] at hcat
      rw [wfStr_iff] at hcat
      simp [CandItem.toJVal, getString, getStringGo, jGet, jLookup, JVal.isRecord, optStrJ,
        hcat.1, hcat.2]
  rw [normalizeLineItem]
  have hrec : (CandItem.toJVal ⟨d, q, up, am, cat⟩).isRecord = true := rfl
  rw [hrec]
  simp only [if_true, hamt, hdesc, hqty, hup, hcat2]
  simp [hd.2]

theorem filterMap_normalizeLineItem_fix (items : List CandItem)
    (h : items.all CandItem.wf = true) :
    (items.map CandItem.toJVal).filterMap normalizeLineItem = items := by
  induction items with
  | nil => rfl
  | cons it rest ih =>
    rw [List.all_cons, Bool.and_eq_true] at h
    rw [List.map_cons, List.filterMap_cons, normalizeLineItem_toJVal_fix it h.1]
    rw [ih h.2]

theorem jget_toJVal_vendor (c : Candidate) :
    jGet c.toJVal "vendor" = JVal.obj [("name", JVal.str c.vendorName),
      ("taxId", optStrJ c.vendorTaxId), ("address", optStrJ c.vendorAddress),
      ("email", optStrJ c.vendorEmail), ("phone", optStrJ c.vendorPhone)] := by
  simp [Candidate.toJVal, jGet, jLookup]

theorem jget_toJVal_invoice (c : Candidate) :
    jGet c.toJVal "invoice" = JVal.obj [("number", JVal.str c.invoiceNumber),
      ("date", JVal.str c.invoiceDate), ("dueDate", optStrJ c.invoiceDueDate),
      ("currency", JVal.str c.invoiceCurrency), ("subtotal", optNumJ c.invoiceSubtotal),
      ("taxAmount", optNumJ c.invoiceTaxAmount),
      ("totalAmount", optNumJ c.invoiceTotalAmount)] := by
  simp [Candidate.toJVal, jGet, jLookup]

theorem jget_toJVal_assignment (c : Candidate) :
    jGet c.toJVal "assignment" = JVal.obj [("department", optStrJ c.assignDepartment),
      ("employee", optStrJ c.assignEmployee), ("costCenter", optStrJ c.assignCostCenter)] := by
  simp [Candidate.toJVal, jGet, jLookup]

theorem resolveInvoiceSource_toJVal (c : Candidate) :
    resolveInvoiceSource c.toJVal = JVal.obj [("number", JVal.str c.invoiceNumber),
      ("date", JVal.str c.invoiceDate), ("dueDate", optStrJ c.invoiceDueDate),
      ("currency", JVal.str c.invoiceCurrency), ("subtotal", optNumJ c.invoiceSubtotal),
      ("taxAmount", optNumJ c.invoiceTaxAmount),
      ("totalAmount", optNumJ c.invoiceTotalAmount)] := by
  rw [resolveInvoiceSource, jget_toJVal_invoice]
  simp [JVal.isRecord]

theorem resolveAssignmentSource_toJVal (c : Candidate) :
    resolveAssignmentSource c.toJVal = JVal.obj [("department", optStrJ c.assignDepartment),
      ("employee", optStrJ c.assignEmployee), ("costCenter", optStrJ c.assignCostCenter)] := by
  rw [resolveAssignmentSource, jget_toJVal_assignment]
  simp [JVal.isRecord]

theorem resolveLineItems_toJVal (c : Candidate) :
    resolveLineItems (resolveInvoiceSource c.toJVal) c.toJVal =
      c.lineItems.map CandItem.toJVal := by
  rw [resolveLineItems, resolveInvoiceSource_toJVal]
  simp [asArray, jGet, jLookup, Candidate.toJVal]

theorem normalizeCore_toJVal_fix (today : String) (c : Candidate) (hwf : c.wf = true) :
    normalizeCore today c.toJVal = c := by
  obtain ⟨vn, tid, addr, em, ph, num, date, dd, cur, sub, tax, tot, dep, emp, cc, items, ai⟩ := c
  simp only [Candidate.wf, Bool.and_eq_true] at hwf
  obtain ⟨⟨⟨⟨⟨⟨⟨⟨⟨⟨⟨⟨hvn, htid⟩, haddr⟩, hem⟩, hph⟩, hnum⟩, hdate⟩, hdd⟩, hcur⟩, hdep⟩,
    hemp⟩, hcc⟩, hitems⟩ := hwf
  rw [wfStr_iff] at hvn hnum hdate hcur
  rw [normalizeCore]
  rw [resolveLineItems_toJVal, resolveInvoiceSource_toJVal, resolveAssignmentSource_toJVal,
    jget_toJVal_vendor]
  simp only [JVal.isRecord, if_true, Candidate.mk.injEq]
  refine ⟨?_, ?_, ?_, ?_, ?_, ?_, ?_, ?_, ?_, ?_, ?_, ?_, ?_, ?_, ?_, ?_, ?_⟩
  · simp [getString, getStringGo, jGet, jLookup, JVal.isRecord, hvn.1, hvn.2]
  · cases tid with
    | none => simp [getString, getStringGo, jGet, jLookup, JVal.isRecord, optStrJ]
    | some s =>
      simp only [wfOptStr] at htid
      rw [wfStr_iff] at htid
      simp [getString, getStringGo, jGet, jLookup, JVal.isRecord, optStrJ, htid.1, htid.2]
  · cases addr with
    | none => simp [getString, getStringGo, jGet, jLookup, JVal.isRecord, optStrJ]
    | some s =>
      simp only [wfOptStr] at haddr
      rw [wfStr_iff] at haddr
      simp [getString, getStringGo, jGet, jLookup, JVal.isRecord, optStrJ, haddr.1, haddr.2]
  · cases em with
    | none => simp [getString, getStringGo, jGet, jLookup, JVal.isRecord, optStrJ]
    | some s =>
      simp only [wfOptStr] at hem
      rw [wfStr_iff] at hem
      simp [getString, getStringGo, jGet, jLookup, JVal.isRecord, optStrJ, hem.1, hem.2]
  · cases ph with
    | none => simp [getString, getStringGo, jGet, jLookup, JVal.isRecord, optStrJ]
    | some s =>
      simp only [wfOptStr] at hph
      rw [wfStr_iff] at hph
      simp [getString, getStringGo, jGet, jLookup, JVal.isRecord, optStrJ, hph.1, hph.2]
  · simp [jsOr, getString, getStringGo, jGet, jLookup, JVal.isRecord, hnum.1, hnum.2]
  · simp [jsOr, getString, getStringGo, jGet, jLookup, JVal.isRecord, hdate.1, hdate.2]
  · cases dd with
    | none =>
      simp [jsOr, getString, getStringGo, jGet, jLookup, JVal.isRecord, optStrJ,
        Candidate.toJVal]
    | some s =>
      simp only [wfOptStr] at hdd
      rw [wfStr_iff] at hdd
      simp [jsOr, getString, getStringGo, jGet, jLookup, JVal.isRecord, optStrJ, hdd.1, hdd.2]
  · simp [jsOr, getString, getStringGo, jGet, jLookup, JVal.isRecord, hcur.1, hcur.2]
  · cases sub with
    | none =>
      simp [getNumber, getNumberGo, jGet, jLookup, JVal.isRecord, optNumJ, coerceNumber]
    | some q =>
      simp [getNumber, getNumberGo, jGet, jLookup, JVal.isRecord, optNumJ, coerceNumber]
  · cases tax with
    | none =>
      simp [getNumber, getNumberGo, jGet, jLookup, JVal.isRecord, optNumJ, coerceNumber]
    | some q =>
      simp [getNumber, getNumberGo, jGet, jLookup, JVal.isRecord, optNumJ, coerceNumber]
  · cases tot with
    | none =>
      simp [jsOr, getNumber, getNumberGo, jGet, jLookup, JVal.isRecord, optNumJ, coerceNumber,
        Candidate.toJVal]
    | some q =>
      simp [jsOr, getNumber, getNumberGo, jGet, jLookup, JVal.isRecord, optNumJ, coerceNumber]
  · cases dep with
    | none => simp [getString, getStringGo, jGet, jLookup, JVal.isRecord, optStrJ]
    | some s =>
      simp only [wfOptStr] at hdep
      rw [wfStr_iff] at hdep
      simp [getString, getStringGo, jGet, jLookup, JVal.isRecord, optStrJ, hdep.1, hdep.2]
  · cases emp with
    | none =>
      simp [jsOr, getString, getStringGo, jGet, jLookup, JVal.isRecord, optStrJ,
        Candidate.toJVal]
    | some s =>
      simp only [wfOptStr] at hemp
      rw [wfStr_iff] at hemp
      simp [jsOr, getString, getStringGo, jGet, jLookup, JVal.isRecord, optStrJ, hemp.1, hemp.2]
  · cases cc with
    | none => simp [getString, getStringGo, jGet, jLookup, JVal.isRecord, optStrJ]
    | some s =>
      simp only [wfOptStr] at hcc
      rw [wfStr_iff] at hcc
      simp [getString, getStringGo, jGet, jLookup, JVal.isRecord, optStrJ, hcc.1, hcc.2]
  · exact filterMap_normalizeLineItem_fix items hitems
  · cases ai with
    | none => simp [Candidate.toJVal, jGet, jLookup]
    | some fields => simp [Candidate.toJVal, jGet, jLookup]

/-- C9 counterexample: the empty object is itself an output of
normalizeExtractionPayload (its value on any non-record input such as
JSON null), yet it is not a fixed point: renormalizing it produces the
fully defaulted candidate object instead.  So normalization is not
idempotent on every output. -/
theorem c9_counterexample :
    normalizeExtractionPayload "2024-05-01" (normalizeExtractionPayload "2024-05-01" JVal.null) ≠
      normalizeExtractionPayload "2024-05-01" JVal.null := by
  intro h
  have h2 := congrArg (fun x => JVal.hasKey x "vendor") h
  exact absurd h2 (by with_unfolding_all decide)

/-- C9 amended: normalization is idempotent on the canonical outputs
arising from RECORD inputs: for every object input (and a trimmed
non-empty current-date string), normalizing twice equals normalizing
once.  The outputs for non-record inputs (the empty object) are the
only outputs that are not fixed points. -/
theorem c9_normalize_idempotent_on_records (today : String) (input : JVal)
    (ht : wfStr today = true) (hr : input.isRecord = true) :
    normalizeExtractionPayload today (normalizeExtractionPayload today input) =
      normalizeExtractionPayload today input := by
  have hin : normalizeExtractionPayload today input = (normalizeCore today input).toJVal := by
    rw [normalizeExtractionPayload, hr]
    simp
  rw [hin, normalizeExtractionPayload]
  have hrec : (normalizeCore today input).toJVal.isRecord = true := rfl
  rw [hrec]
  simp only [if_true]
  rw [normalizeCore_toJVal_fix today (normalizeCore today input)
    (normalizeCore_wf today input ht)]

/-- C9 witness: idempotence at a concrete record input carrying a
vendor name and a line item. -/
theorem c9_witness :
    normalizeExtractionPayload "2024-05-01"
        (normalizeExtractionPayload "2024-05-01"
          (JVal.obj [("vendor", JVal.obj [("name", JVal.str "Acme")]),
            ("lineItems", JVal.arr [JVal.obj [("description", JVal.str "Widget"),
              ("amount", JVal.num 5)]])])) =
      normalizeExtractionPayload "2024-05-01"
        (JVal.obj [("vendor", JVal.obj [("name", JVal.str "Acme")]),
          ("lineItems", JVal.arr [JVal.obj [("description", JVal.str "Widget"),
            ("amount", JVal.num 5)]])]) :=
  c9_normalize_idempotent_on_records "2024-05-01"
    (JVal.obj [("vendor", JVal.obj [("name", JVal.str "Acme")]),
      ("lineItems", JVal.arr [JVal.obj [("description", JVal.str "Widget"),
        ("amount", JVal.num 5)]])])
    (by with_unfolding_all decide) rfl

/-- Zod z.string() success. -/
def zStr : JVal → Bool
  | JVal.str _ => true
  | _ => false

/-- Zod z.string().optional() success (undefined allowed, null
rejected). -/
def zOptStr : JVal → Bool
  | JVal.undef => true
  | JVal.str _ => true
  | _ => false

/-- Zod z.number().nonnegative() success. -/
def zNonnegNum : JVal → Bool
  | JVal.num q => decide (0 ≤ q)
  | _ => false

/-- Zod optional (or defaulted) non-negative number success. -/
def zOptNonnegNum : JVal → Bool
  | JVal.undef => true
  | v => zNonnegNum v

/-- Vendor block of InvoiceExtractionSchema; the Zod email format
check is abstracted as the parameter emailOk. -/
def zodVendorOk (emailOk : String → Bool) (v : JVal) : Bool :=
  v.isRecord && zStr (jGet v "name") && zOptStr (jGet v "taxId") &&
    zOptStr (jGet v "address") &&
    (match jGet v "email" with
     | JVal.undef => true
     | JVal.str s => emailOk s
     | _ => false) &&
    zOptStr (jGet v "phone")

/-- Invoice block of InvoiceExtractionSchema (currency has a default,
subtotal and taxAmount are optional, totalAmount is required). -/
def zodInvoiceOk (v : JVal) : Bool :=
  v.isRecord && zStr (jGet v "number") && zStr (jGet v "date") &&
    zOptStr (jGet v "dueDate") && zOptStr (jGet v "currency") &&
    zOptNonnegNum (jGet v "subtotal") && zOptNonnegNum (jGet v "taxAmount") &&
    zNonnegNum (jGet v "totalAmount")

/-- Assignment block of InvoiceExtractionSchema. -/
def zodAssignmentOk (v : JVal) : Bool :=
  v.isRecord && zOptStr (jGet v "department") && zOptStr (jGet v "employee") &&
    zOptStr (jGet v "costCenter")

/-- Line-item element schema InvoiceLineItemSchema (quantity has
default 1 so it may be absent; unitPrice and amount are required
non-negative; category optional). -/
def zodLineItemOk (v : JVal) : Bool :=
  v.isRecord && zStr (jGet v "description") && zOptNonnegNum (jGet v "quantity") &&
    zNonnegNum (jGet v "unitPrice") && zNonnegNum (jGet v "amount") &&
    zOptStr (jGet v "category")

/-- Optional aiEnhancements block: when present it must be an object
whose confidence (if present) is a number in the unit interval, whose
suggestedCategories (if present) is an array of strings, and whose
processingTimestamp (if present) is a string. -/
def zodAiOk (v : JVal) : Bool :=
  match v with
  | JVal.undef => true
  | v =>
    v.isRecord &&
      (match jGet v "confidence" with
       | JVal.undef => true
       | JVal.num q => decide (0 ≤ q) && decide (q ≤ 1)
       | _ => false) &&
      (match jGet v "suggestedCategories" with
       | JVal.undef => true
       | JVal.arr xs => xs.all zStr
       | _ => false) &&
      zOptStr (jGet v "processingTimestamp")

/-- Embedding of InvoiceExtractionSchema.parse success from openai.ts:
the candidate is an object whose vendor, invoice and assignment blocks
validate, whose lineItems is a non-empty array of valid items, and
whose optional aiEnhancements block validates.  Zod strips unknown
keys without failing, so only the declared keys matter. -/
def zodParseOk (emailOk : String → Bool) (v : JVal) : Bool :=
  v.isRecord && zodVendorOk emailOk (jGet v "vendor") && zodInvoiceOk (jGet v "invoice") &&
    zodAssignmentOk (jGet v "assignment") &&
    (match jGet v "lineItems" with
     | JVal.arr xs => decide (1 ≤ xs.length) && xs.all zodLineItemOk
     | _ => false) &&
    zodAiOk (jGet v "aiEnhancements")

/-- Non-empty string check of the claim wording for C3. -/
def specNonEmptyStrAt (v : JVal) : Bool :=
  match v with
  | JVal.str s => !(s == "")
  | _ => false

/-- The validation conditions exactly as the claim for C3 words them:
vendor name, invoice number, invoice date present and non-empty, total
amount present, all monetary and quantity fields (quantity, unitPrice,
amount, subtotal, taxAmount, totalAmount) non-negative numbers, at
least one line item, and the optional confidence score in the unit
interval when present. -/
def specClaimedValidationOk (cand : JVal) : Bool :=
  specNonEmptyStrAt (jGet (jGet cand "vendor") "name") &&
    specNonEmptyStrAt (jGet (jGet cand "invoice") "number") &&
    specNonEmptyStrAt (jGet (jGet cand "invoice") "date") &&
    zNonnegNum (jGet (jGet cand "invoice") "totalAmount") &&
    zOptNonnegNum (jGet (jGet cand "invoice") "subtotal") &&
    zOptNonnegNum (jGet (jGet cand "invoice") "taxAmount") &&
    (match jGet cand "lineItems" with
     | JVal.arr xs =>
       decide (1 ≤ xs.length) &&
         xs.all (fun it => zNonnegNum (jGet it "quantity") &&
           zNonnegNum (jGet it "unitPrice") && zNonnegNum (jGet it "amount"))
     | _ => false) &&
    (match jGet (jGet cand "aiEnhancements") "confidence" with
     | JVal.undef => true
     | JVal.num q => decide (0 ≤ q) && decide (q ≤ 1)
     | _ => false)

/-- The conditions the claim for C3 omits but validation also
requires: the vendor email, when present, passes the email format
check, and the passed-through aiEnhancements block, when present, has
a string array under suggestedCategories and a string under
processingTimestamp when those keys are present. -/
def amendedExtraOk (emailOk : String → Bool) (cand : JVal) : Bool :=
  (match jGet (jGet cand "vendor") "email" with
   | JVal.undef => true
   | JVal.str s => emailOk s
   | _ => false) &&
    (match jGet cand "aiEnhancements" with
     | JVal.undef => true
     | ai =>
       (match jGet ai "suggestedCategories" with
        | JVal.undef => true
        | JVal.arr xs => xs.all zStr
        | _ => false) &&
         zOptStr (jGet ai "processingTimestamp"))

theorem zodLineItemOk_toJVal (it : CandItem) :
    zodLineItemOk it.toJVal =
      (decide (0 ≤ it.quantity) && decide (0 ≤ it.unitPrice) && decide (0 ≤ it.amount)) := by
  obtain ⟨d, q, up, am, cat⟩ := it
  cases cat with
  | none =>
    simp [zodLineItemOk, CandItem.toJVal, jGet, jLookup, JVal.isRecord, zStr, zOptStr,
      zNonnegNum, zOptNonnegNum, optStrJ, Bool.and_assoc]
  | some s =>
    simp [zodLineItemOk, CandItem.toJVal, jGet, jLookup, JVal.isRecord, zStr, zOptStr,
      zNonnegNum, zOptNonnegNum, optStrJ, Bool.and_assoc]

theorem specItemChecks_toJVal (it : CandItem) :
    (zNonnegNum (jGet it.toJVal "quantity") && zNonnegNum (jGet it.toJVal "unitPrice") &&
        zNonnegNum (jGet it.toJVal "amount")) =
      (decide (0 ≤ it.quantity) && decide (0 ≤ it.unitPrice) && decide (0 ≤ it.amount)) := by
  obtain ⟨d, q, up, am, cat⟩ := it
  simp [CandItem.toJVal, jGet, jLookup, zNonnegNum]

theorem jget_toJVal_lineItems (c : Candidate) :
    jGet c.toJVal "lineItems" = JVal.arr (c.lineItems.map CandItem.toJVal) := by
  simp [Candidate.toJVal, jGet, jLookup]

theorem jget_toJVal_ai (c : Candidate) :
    jGet c.toJVal "aiEnhancements" =
      (match c.aiEnhancements with
       | some fields => JVal.obj fields
       | none => JVal.undef) := by
  simp [Candidate.toJVal, jGet, jLookup]

theorem zOptStr_optStrJ (o : Option String) : zOptStr (optStrJ o) = true := by
  cases o <;> rfl

theorem zOptNonnegNum_optNumJ (o : Option ℚ) :
    zOptNonnegNum (optNumJ o) = o.elim true (fun q => decide (0 ≤ q)) := by
  cases o <;> rfl

theorem zNonnegNum_optNumJ (o : Option ℚ) :
    zNonnegNum (optNumJ o) = o.elim false (fun q => decide (0 ≤ q)) := by
  cases o <;> rfl

theorem emailMatch_optStrJ (emailOk : String → Bool) (o : Option String) :
    (match optStrJ o with
     | JVal.undef => true
     | JVal.str s => emailOk s
     | _ => false) = o.elim true emailOk := by
  cases o <;> rfl

theorem jGet_obj (fields : List (String × JVal)) (key : String) :
    jGet (JVal.obj fields) key = jLookup fields key := rfl

theorem jget_item_quantity (it : CandItem) :
    jGet it.toJVal "quantity" = JVal.num it.quantity := by
  obtain ⟨d, q, up, am, cat⟩ := it
  simp [CandItem.toJVal, jGet, jLookup]

theorem jget_item_unit_price (it : CandItem) :
    jGet it.toJVal "unitPrice" = JVal.num it.unitPrice := by
  obtain ⟨d, q, up, am, cat⟩ := it
  simp [CandItem.toJVal, jGet, jLookup]

theorem jget_item_amount (it : CandItem) :
    jGet it.toJVal "amount" = JVal.num it.amount := by
  obtain ⟨d, q, up, am, cat⟩ := it
  simp [CandItem.toJVal, jGet, jLookup]

theorem zodParseOk_toJVal_iff (emailOk : String → Bool) (c : Candidate) (hwf : c.wf = true) :
    zodParseOk emailOk c.toJVal = true ↔
      (specClaimedValidationOk c.toJVal = true ∧ amendedExtraOk emailOk c.toJVal = true) := by
  obtain ⟨vn, tid, addr, em, ph, num, date, dd, cur, sub, tax, tot, dep, emp, cc, items, ai⟩ := c
  simp only [Candidate.wf, Bool.and_eq_true] at hwf
  obtain ⟨⟨⟨⟨⟨⟨⟨⟨⟨⟨⟨⟨hvn, htid⟩, haddr⟩, hem⟩, hph⟩, hnum⟩, hdate⟩, hdd⟩, hcur⟩, hdep⟩,
    hemp⟩, hcc⟩, hitems⟩ := hwf
  rw [wfStr_iff] at hvn hnum hdate
  cases ai with
  | none =>
    simp [zodParseOk, zodVendorOk, zodInvoiceOk, zodAssignmentOk, zodAiOk,
      specClaimedValidationOk, specNonEmptyStrAt, amendedExtraOk, Candidate.toJVal,
      jGet_obj, jLookup, JVal.isRecord, zStr, List.all_map, Function.comp,
      zOptStr_optStrJ, zOptNonnegNum_optNumJ, zNonnegNum_optNumJ, emailMatch_optStrJ,
      zodLineItemOk_toJVal, jget_item_quantity, jget_item_unit_price, jget_item_amount,
      zNonnegNum, hvn.2, hnum.2, hdate.2, Bool.and_eq_true]
    tauto
  | some fields =>
    simp [zodParseOk, zodVendorOk, zodInvoiceOk, zodAssignmentOk, zodAiOk,
      specClaimedValidationOk, specNonEmptyStrAt, amendedExtraOk, Candidate.toJVal,
      jGet_obj, jLookup, JVal.isRecord, zStr, List.all_map, Function.comp,
      zOptStr_optStrJ, zOptNonnegNum_optNumJ, zNonnegNum_optNumJ, emailMatch_optStrJ,
      zodLineItemOk_toJVal, jget_item_quantity, jget_item_unit_price, jget_item_amount,
      zNonnegNum, hvn.2, hnum.2, hdate.2, Bool.and_eq_true]
    tauto

/-- C3 counterexample: a normalized candidate satisfying every
condition the claim lists (vendor name, invoice number, date, total
present and non-empty, all monetary fields non-negative, one line
item, no confidence score) can still fail InvoiceExtractionSchema
validation, because a passed-through aiEnhancements block with a
non-array suggestedCategories is rejected by the schema; the claimed
iff is therefore false (even with the most permissive email check). -/
theorem c3_counterexample :
    specClaimedValidationOk
        (normalizeExtractionPayload "2024-05-01"
          (JVal.obj [("vendor", JVal.obj [("name", JVal.str "Acme")]),
            ("invoice", JVal.obj [("number", JVal.str "INV-1"), ("date", JVal.str "2024-01-02"),
              ("totalAmount", JVal.num 5)]),
            ("lineItems", JVal.arr [JVal.obj [("description", JVal.str "Widget"),
              ("amount", JVal.num 5)]]),
            ("aiEnhancements", JVal.obj [("suggestedCategories", JVal.num 7)])])) = true ∧
    zodParseOk (fun _ => true)
        (normalizeExtractionPayload "2024-05-01"
          (JVal.obj [("vendor", JVal.obj [("name", JVal.str "Acme")]),
            ("invoice", JVal.obj [("number", JVal.str "INV-1"), ("date", JVal.str "2024-01-02"),
              ("totalAmount", JVal.num 5)]),
            ("lineItems", JVal.arr [JVal.obj [("description", JVal.str "Widget"),
              ("amount", JVal.num 5)]]),
            ("aiEnhancements", JVal.obj [("suggestedCategories", JVal.num 7)])])) = false := by
  refine ⟨?_, ?_⟩ <;> with_unfolding_all decide

/-- C3 amended: for every normalized candidate (any input run through
normalizeExtractionPayload with a trimmed non-empty current date),
strict validation succeeds iff the conditions the claim lists hold AND
additionally the vendor email, when present, passes the email format
check, and the passed-through aiEnhancements block is well formed
(string-array suggestedCategories and string processingTimestamp when
present).  The non-emptiness of vendor name, invoice number and date
is guaranteed by normalization defaults, and the schema itself never
checks string emptiness. -/
theorem c3_validation_iff (emailOk : String → Bool) (today : String) (input : JVal)
    (ht : wfStr today = true) :
    zodParseOk emailOk (normalizeExtractionPayload today input) = true ↔
      (specClaimedValidationOk (normalizeExtractionPayload today input) = true ∧
        amendedExtraOk emailOk (normalizeExtractionPayload today input) = true) := by
  by_cases hr : input.isRecord = true
  · have hin : normalizeExtractionPayload today input = (normalizeCore today input).toJVal := by
      rw [normalizeExtractionPayload, hr]
      simp
    rw [hin]
    exact zodParseOk_toJVal_iff emailOk _ (normalizeCore_wf today input ht)
  · have hrf : input.isRecord = false := by
      revert hr
      cases input.isRecord <;> simp
    have hin : normalizeExtractionPayload today input = JVal.obj [] := by
      rw [normalizeExtractionPayload, hrf]
      simp
    rw [hin]
    simp [zodParseOk, zodVendorOk, jGet_obj, jLookup, JVal.isRecord,
      specClaimedValidationOk, specNonEmptyStrAt, jGet]

/-- C3 witness: the iff at a concrete well-formed input. -/
theorem c3_witness :
    zodParseOk (fun _ => true)
        (normalizeExtractionPayload "2024-05-01"
          (JVal.obj [("vendor", JVal.obj [("name", JVal.str "Acme")]),
            ("invoice", JVal.obj [("number", JVal.str "INV-1"), ("date", JVal.str "2024-01-02"),
              ("totalAmount", JVal.num 5)]),
            ("lineItems", JVal.arr [JVal.obj [("description", JVal.str "Widget"),
              ("amount", JVal.num 5)]])])) = true ↔
      (specClaimedValidationOk
          (normalizeExtractionPayload "2024-05-01"
            (JVal.obj [("vendor", JVal.obj [("name", JVal.str "Acme")]),
              ("invoice", JVal.obj [("number", JVal.str "INV-1"),
                ("date", JVal.str "2024-01-02"), ("totalAmount", JVal.num 5)]),
              ("lineItems", JVal.arr [JVal.obj [("description", JVal.str "Widget"),
                ("amount", JVal.num 5)]])])) = true ∧
        amendedExtraOk (fun _ => true)
          (normalizeExtractionPayload "2024-05-01"
            (JVal.obj [("vendor", JVal.obj [("name", JVal.str "Acme")]),
              ("invoice", JVal.obj [("number", JVal.str "INV-1"),
                ("date", JVal.str "2024-01-02"), ("totalAmount", JVal.num 5)]),
              ("lineItems", JVal.arr [JVal.obj [("description", JVal.str "Widget"),
                ("amount", JVal.num 5)]])])) = true) :=
  c3_validation_iff (fun _ => true) "2024-05-01"
    (JVal.obj [("vendor", JVal.obj [("name", JVal.str "Acme")]),
      ("invoice", JVal.obj [("number", JVal.str "INV-1"), ("date", JVal.str "2024-01-02"),
        ("totalAmount", JVal.num 5)]),
      ("lineItems", JVal.arr [JVal.obj [("description", JVal.str "Widget"),
        ("amount", JVal.num 5)]])])
    (by with_unfolding_all decide)

/-- Attachment reference handed to the extraction orchestrator. -/
structure AttachmentInput where
  url : String
  contentType : String
  filename : Option String
  deriving DecidableEq

/-- The image allow-list of buildMessages in openai.ts. -/
def supportedImageContentTypes : List String :=
  ["image/png", "image/jpeg", "image/jpg", "image/gif", "image/webp"]

/-- The PDF content-type set of buildMessages in openai.ts. -/
def pdfContentTypes : List String :=
  ["application/pdf"]

/-- The presign allow-list of attachments.ts (checked verbatim, not
normalized). -/
def allowedPresignContentTypes : List String :=
  ["application/pdf", "image/png", "image/jpeg", "image/heic", "image/heif"]

/-- ASCII lower-casing (all content types involved are ASCII). -/
def jsToLower (s : String) : String :=
  String.mk (s.data.map Char.toLower)

/-- Embedding of normalizeContentType from openai.ts: text before the
first semicolon, trimmed, lower-cased. -/
def normalizeContentType (ct : String) : String :=
  jsToLower (jsTrim (String.mk (ct.data.takeWhile (fun c => c != ';'))))

/-- Typed failures of buildMessages. -/
inductive ExtractErr where
  | unsupportedType (contentType : String)
  | noPdfText (displayName : String)
  deriving DecidableEq

/-- Prompt units buildMessages produces, kept structured (the claim
concerns dispatch by content type, not the rendered prompt text). -/
inductive Msg where
  | systemPrompt
  | emailContent (text : String)
  | imageAttachment (displayName contentType url : String)
  | pdfChunk (displayName : String) (index total : ℕ) (lastTruncated : Bool) (chunk : String)
  deriving DecidableEq

/-- Embedding of getAttachmentDisplayName from openai.ts. -/
def getAttachmentDisplayName (a : AttachmentInput) : String :=
  match a.filename with
  | some f => if jsTrim f = "" then "attachment" else jsTrim f
  | none => "attachment"

/-- CRLF to LF step of normalizePdfText. -/
def crlfToLf : List Char → List Char
  | '\r' :: '\n' :: rest => '\n' :: crlfToLf rest
  | c :: rest => c :: crlfToLf rest
  | [] => []

/-- Space/tab-run collapse step of normalizePdfText. -/
def collapseSpaces : List Char → List Char
  | [] => []
  | c :: rest =>
    if c = ' ' || c = '\t' then
      ' ' :: collapseSpaces (rest.dropWhile (fun d => d = ' ' || d = '\t'))
    else c :: collapseSpaces rest
termination_by l => l.length
decreasing_by
  · exact Nat.lt_succ_of_le (List.Sublist.length_le (List.dropWhile_sublist _))
  · simp

/-- Three-or-more newline collapse step of normalizePdfText. -/
def collapseNewlines : List Char → List Char
  | [] => []
  | c :: rest =>
    if c = '\n' && 2 ≤ (rest.takeWhile (fun d => d = '\n')).length then
      '\n' :: '\n' :: collapseNewlines (rest.dropWhile (fun d => d = '\n'))
    else c :: collapseNewlines rest
termination_by l => l.length
decreasing_by
  · exact Nat.lt_succ_of_le (List.Sublist.length_le (List.dropWhile_sublist _))
  · simp

/-- Embedding of normalizePdfText from openai.ts: CRLF to LF, null
removal, space-run collapse, blank-line collapse, trim. -/
def normalizePdfText (s : String) : String :=
  jsTrim (String.mk (collapseNewlines (collapseSpaces
    ((crlfToLf s.data).filter (fun c => c != '\x00')))))

/-- Slicing loop of chunkPdfText: 4000-character slices, each trimmed,
empty slices skipped. -/
def pdfChunksOf (l : List Char) : List String :=
  if l = [] then []
  else
    let chunk := jsTrim (String.mk (l.take 4000))
    if chunk = "" then pdfChunksOf (l.drop 4000) else chunk :: pdfChunksOf (l.drop 4000)
termination_by l.length
decreasing_by
  all_goals
    rename_i hne
    have hlen : 0 < l.length := List.length_pos.mpr hne
    simp [List.length_drop]
    omega

/-- Embedding of chunkPdfText from openai.ts (chunk size 4000, at most
5 chunks); returns the chunks and whether truncation happened. -/
def chunkPdfText (text : String) : List String × Bool :=
  let normalized := normalizePdfText text
  if normalized.data.length = 0 then ([], false)
  else
    let maxLength := 4000 * 5
    let truncatedText :=
      if maxLength < normalized.data.length then normalized.data.take maxLength
      else normalized.data
    (pdfChunksOf truncatedText, truncatedText.length < normalized.data.length)

/-- Message construction for one attachment in buildMessages: images
on the allow-list become visual input, PDFs become text chunks (empty
extracted text is a typed failure), anything else is a typed
unsupported-content-type failure naming the declared type. -/
def buildAttachmentMessages (pdfText : AttachmentInput → String) (a : AttachmentInput) :
    Except ExtractErr (List Msg) :=
  let ct := normalizeContentType a.contentType
  if ct ∈ supportedImageContentTypes then
    Except.ok [Msg.imageAttachment (getAttachmentDisplayName a) ct a.url]
  else if ct ∈ pdfContentTypes then
    let (chunks, truncated) := chunkPdfText (pdfText a)
    if chunks.length = 0 then
      Except.error (ExtractErr.noPdfText (getAttachmentDisplayName a))
    else
      Except.ok (chunks.enum.map (fun p =>
        Msg.pdfChunk (getAttachmentDisplayName a) p.1 chunks.length
          (truncated && p.1 = chunks.length - 1) p.2))
  else Except.error (ExtractErr.unsupportedType a.contentType)

/-- Sequential attachment loop of buildMessages (the first failure
aborts the whole extraction). -/
def buildAttachmentLoop (pdfText : AttachmentInput → String) :
    List AttachmentInput → Except ExtractErr (List Msg)
  | [] => Except.ok []
  | a :: rest =>
    match buildAttachmentMessages pdfText a with
    | Except.error e => Except.error e
    | Except.ok ms =>
      match buildAttachmentLoop pdfText rest with
      | Except.error e => Except.error e
      | Except.ok ms2 => Except.ok (ms ++ ms2)

/-- Embedding of buildMessages from openai.ts: system prompt, optional
email-content turn (skipped for an absent or empty string, which is
falsy), then one unit per attachment; PDF byte download and parsing
is the external pdf-parse collaborator, abstracted as the pdfText
function giving each attachment its extracted text. -/
def buildMessages (emailContent : Option String) (attachments : List AttachmentInput)
    (pdfText : AttachmentInput → String) : Except ExtractErr (List Msg) :=
  let base := Msg.systemPrompt ::
    (match emailContent with
     | some t => if t = "" then [] else [Msg.emailContent t]
     | none => [])
  match buildAttachmentLoop pdfText attachments with
  | Except.error e => Except.error e
  | Except.ok ms => Except.ok (base ++ ms)

theorem buildAttachmentMessages_supported (pdfText : AttachmentInput → String)
    (a : AttachmentInput)
    (h : normalizeContentType a.contentType ∈ supportedImageContentTypes ∨
      normalizeContentType a.contentType ∈ pdfContentTypes) (ct : String) :
    buildAttachmentMessages pdfText a ≠ Except.error (ExtractErr.unsupportedType ct) := by
  rw [buildAttachmentMessages]
  by_cases himg : normalizeContentType a.contentType ∈ supportedImageContentTypes
  · simp [himg]
  · have hpdf : normalizeContentType a.contentType ∈ pdfContentTypes := by tauto
    simp only [if_neg himg, if_pos hpdf]
    by_cases hz : (chunkPdfText (pdfText a)).1.length = 0
    · simp [hz]
    · simp [hz]

theorem buildAttachmentLoop_supported (pdfText : AttachmentInput → String)
    (atts : List AttachmentInput)
    (h : ∀ a ∈ atts, normalizeContentType a.contentType ∈ supportedImageContentTypes ∨
      normalizeContentType a.contentType ∈ pdfContentTypes) (ct : String) :
    buildAttachmentLoop pdfText atts ≠ Except.error (ExtractErr.unsupportedType ct) := by
  induction atts with
  | nil => simp [buildAttachmentLoop]
  | cons a rest ih =>
    rw [buildAttachmentLoop]
    match ha : buildAttachmentMessages pdfText a with
    | Except.error e =>
      intro hcon
      cases hcon
      exact buildAttachmentMessages_supported pdfText a (h a (by simp)) ct ha
    | Except.ok ms =>
      match hrest : buildAttachmentLoop pdfText rest with
      | Except.error e =>
        intro hcon
        cases hcon
        exact ih (fun x hx => h x (by simp [hx])) hrest
      | Except.ok ms2 => simp

/-- C7 counterexample: image/heic is on the presign allow-list of
attachments.ts, yet the extraction orchestrator fails a heic
attachment with the typed unsupported-content-type error; the
orchestrator's image set is png/jpeg/jpg/gif/webp, not heic/heif, so
the single system-wide allow-list the claim asserts does not exist. -/
theorem c7_counterexample :
    ("image/heic" ∈ allowedPresignContentTypes) ∧
    buildMessages none [⟨"https://x", "image/heic", none⟩] (fun _ => "") =
      Except.error (ExtractErr.unsupportedType "image/heic") := by
  refine ⟨by decide, ?_⟩
  with_unfolding_all rfl

/-- C7 amended: the presign endpoint enforces the exact allow-list
pdf/png/jpeg/heic/heif, but the extraction orchestrator accepts
pdf/png/jpeg/jpg/gif/webp: when every attachment's normalized content
type is in the orchestrator set (images as visual input, PDFs via text
extraction), buildMessages never fails with an unsupported-type error,
and an attachment whose normalized content type is outside that set
fails the whole extraction with a typed error naming the declared
type. -/
theorem c7_orchestrator_content_types :
    (∀ (ec : Option String) (atts : List AttachmentInput) (pdfText : AttachmentInput → String),
      (∀ a ∈ atts, normalizeContentType a.contentType ∈ supportedImageContentTypes ∨
        normalizeContentType a.contentType ∈ pdfContentTypes) →
      ∀ ct, buildMessages ec atts pdfText ≠ Except.error (ExtractErr.unsupportedType ct)) ∧
    (∀ (ec : Option String) (a : AttachmentInput) (pdfText : AttachmentInput → String),
      normalizeContentType a.contentType ∉ supportedImageContentTypes →
      normalizeContentType a.contentType ∉ pdfContentTypes →
      buildMessages ec [a] pdfText = Except.error (ExtractErr.unsupportedType a.contentType)) := by
  constructor
  · intro ec atts pdfText h ct
    simp only [buildMessages]
    match hloop : buildAttachmentLoop pdfText atts with
    | Except.error e =>
      intro hcon
      cases hcon
      exact buildAttachmentLoop_supported pdfText atts h ct hloop
    | Except.ok ms => simp
  · intro ec a pdfText himg hpdf
    simp only [buildMessages, buildAttachmentLoop, buildAttachmentMessages]
    simp [himg, hpdf]

/-- C7 witness: a jpeg attachment passes the orchestrator without an
unsupported-type failure, and a heif attachment fails with the typed
error naming image/heif. -/
theorem c7_witness :
    (∀ ct, buildMessages none [⟨"https://x", "image/jpeg", none⟩] (fun _ => "") ≠
      Except.error (ExtractErr.unsupportedType ct)) ∧
    buildMessages none [⟨"https://x", "image/heif", none⟩] (fun _ => "") =
      Except.error (ExtractErr.unsupportedType "image/heif") :=
  ⟨fun ct => c7_orchestrator_content_types.1 none [⟨"https://x", "image/jpeg", none⟩]
      (fun _ => "") (by with_unfolding_all decide) ct,
    c7_orchestrator_content_types.2 none ⟨"https://x", "image/heif", none⟩ (fun _ => "")
      (by with_unfolding_all decide) (by with_unfolding_all decide)⟩

/-- Decimal digit list of a natural number, most significant first
(the rendering of a JS integer-valued number in template strings). -/
def natToDigitsList (n : ℕ) : List Char :=
  if h : n < 10 then [Nat.digitChar n]
  else natToDigitsList (n / 10) ++ [Nat.digitChar (n % 10)]
termination_by n
decreasing_by
  exact Nat.div_lt_self (by omega) (by omega)

/-- JS decimal rendering of an integer (what the template literal in
encodeCursor produces for the createdAt column). -/
def jsIntToString : ℤ → String
  | Int.ofNat n => String.mk (natToDigitsList n)
  | Int.negSucc m => String.mk ('-' :: natToDigitsList (m + 1))

/-- UTF-8 bytes of one character (standard 1-4 byte encoding). -/
def utf8EncodeChar (c : Char) : List ℕ :=
  let n := c.toNat
  if n < 128 then [n]
  else if n < 2048 then [192 + n / 64, 128 + n % 64]
  else if n < 65536 then [224 + n / 4096, 128 + n / 64 % 64, 128 + n % 64]
  else [240 + n / 262144, 128 + n / 4096 % 64, 128 + n / 64 % 64, 128 + n % 64]

/-- UTF-8 byte list of a character list (Buffer.from(value, utf8)). -/
def utf8Encode : List Char → List ℕ
  | [] => []
  | c :: cs => utf8EncodeChar c ++ utf8Encode cs

/-- UTF-8 continuation byte test. -/
def isCont (b : ℕ) : Bool :=
  128 ≤ b && b < 192

/-- The U+FFFD replacement character. -/
def replChar : Char :=
  Char.ofNat 65533

/-- One step of UTF-8 decoding (Buffer.prototype.toString with utf8):
given a leading byte and the remaining bytes, produce the decoded
character and the bytes left over.  Well-formed sequences decode to
their code points, surrogates and out-of-range values are rejected;
malformed input produces a replacement character (with a simplified
consume-one-byte recovery, which no theorem below observes because
decoding is only applied to well-formed output of utf8Encode or under
a failure hypothesis). -/
def utf8Step (b : ℕ) (rest : List ℕ) : Char × List ℕ :=
  if b < 128 then (Char.ofNat b, rest)
  else if 194 ≤ b ∧ b ≤ 223 then
    match rest with
    | b1 :: rest1 =>
      if isCont b1 then (Char.ofNat ((b - 192) * 64 + (b1 - 128)), rest1)
      else (replChar, rest)
    | [] => (replChar, [])
  else if 224 ≤ b ∧ b ≤ 239 then
    match rest with
    | b1 :: b2 :: rest2 =>
      if isCont b1 && isCont b2 then
        if 2048 ≤ (b - 224) * 4096 + (b1 - 128) * 64 + (b2 - 128) ∧
            ((b - 224) * 4096 + (b1 - 128) * 64 + (b2 - 128) < 55296 ∨
              57344 ≤ (b - 224) * 4096 + (b1 - 128) * 64 + (b2 - 128)) then
          (Char.ofNat ((b - 224) * 4096 + (b1 - 128) * 64 + (b2 - 128)), rest2)
        else (replChar, rest2)
      else (replChar, rest)
    | _ => (replChar, rest)
  else if 240 ≤ b ∧ b ≤ 244 then
    match rest with
    | b1 :: b2 :: b3 :: rest3 =>
      if isCont b1 && isCont b2 && isCont b3 then
        if 65536 ≤ (b - 240) * 262144 + (b1 - 128) * 4096 + (b2 - 128) * 64 + (b3 - 128) ∧
            (b - 240) * 262144 + (b1 - 128) * 4096 + (b2 - 128) * 64 + (b3 - 128) < 1114112 then
          (Char.ofNat ((b - 240) * 262144 + (b1 - 128) * 4096 + (b2 - 128) * 64 + (b3 - 128)),
            rest3)
        else (replChar, rest3)
      else (replChar, rest)
    | _ => (replChar, rest)
  else (replChar, rest)

theorem utf8Step_tail_le (b : ℕ) (rest : List ℕ) :
    (utf8Step b rest).2.length ≤ rest.length := by
  unfold utf8Step
  repeat' split
  all_goals simp_arith [*]

/-- UTF-8 decoding of a byte list: repeated stepping. -/
def utf8Decode : List ℕ → List Char
  | [] => []
  | b :: rest => (utf8Step b rest).1 :: utf8Decode (utf8Step b rest).2
termination_by l => l.length
decreasing_by
  exact Nat.lt_succ_of_le (utf8Step_tail_le b rest)

/-- The base64url alphabet. -/
def b64Alphabet : List Char :=
  "ABCDEFGHIJKLMNOPQRSTUVWXYZabcdefghijklmnopqrstuvwxyz0123456789-_".data

/-- Character for a sextet value. -/
def b64Char (n : ℕ) : Char :=
  b64Alphabet.getD n 'A'

/-- Sextet value of a character; the url-safe and standard alphabets
are both accepted on decode (as Buffer does), everything else is
ignored. -/
def b64DecodeChar (c : Char) : Option ℕ :=
  if 'A' ≤ c ∧ c ≤ 'Z' then some (c.toNat - 65)
  else if 'a' ≤ c ∧ c ≤ 'z' then some (c.toNat - 97 + 26)
  else if '0' ≤ c ∧ c ≤ '9' then some (c.toNat - 48 + 52)
  else if c = '-' ∨ c = '+' then some 62
  else if c = '_' ∨ c = '/' then some 63
  else none

/-- Base64url rendering of a byte list without padding
(Buffer.prototype.toString with base64url). -/
def b64Encode : List ℕ → List Char
  | [] => []
  | [b0] => [b64Char (b0 / 4), b64Char (b0 % 4 * 16)]
  | [b0, b1] => [b64Char (b0 / 4), b64Char (b0 % 4 * 16 + b1 / 16), b64Char (b1 % 16 * 4)]
  | b0 :: b1 :: b2 :: rest =>
    b64Char (b0 / 4) :: b64Char (b0 % 4 * 16 + b1 / 16) ::
      b64Char (b1 % 16 * 4 + b2 / 64) :: b64Char (b2 % 64) :: b64Encode rest

/-- Byte reassembly from sextets; a lone trailing sextet carries no
complete byte and is dropped. -/
def b64SextetsToBytes : List ℕ → List ℕ
  | s0 :: s1 :: s2 :: s3 :: rest =>
    (s0 * 4 + s1 / 16) :: (s1 % 16 * 16 + s2 / 4) :: (s2 % 4 * 64 + s3) ::
      b64SextetsToBytes rest
  | [s0, s1, s2] => [s0 * 4 + s1 / 16, s1 % 16 * 16 + s2 / 4]
  | [s0, s1] => [s0 * 4 + s1 / 16]
  | _ => []

/-- Base64(url) decoding of a string to bytes (Buffer.from with
base64url): non-alphabet characters are skipped, then sextets are
recombined. -/
def b64Decode (l : List Char) : List ℕ :=
  b64SextetsToBytes (l.filterMap b64DecodeChar)

/-- JS String.prototype.split on the pipe character: n separators
yield n+1 (possibly empty) parts. -/
def splitOnPipe : List Char → List String
  | [] => [""]
  | c :: rest =>
    match splitOnPipe rest with
    | [] => [""]
    | s :: ss => if c = '|' then "" :: s :: ss else String.mk (c :: s.data) :: ss

/-- Exponent digits of a Number literal: the whole remainder must be
non-empty digits. -/
def jsNumExpApply (m : ℚ) (negExp : Bool) (l : List Char) : Option ℚ :=
  if l ≠ [] ∧ l.all Char.isDigit then
    some (if negExp then m / 10 ^ digitsVal l else m * 10 ^ digitsVal l)
  else none

/-- Optionally signed exponent digits of a Number literal. -/
def jsNumExpSign (m : ℚ) : List Char → Option ℚ
  | '-' :: r => jsNumExpApply m true r
  | '+' :: r => jsNumExpApply m false r
  | l => jsNumExpApply m false l

/-- Tail after the mantissa of a Number literal: empty, or a
well-formed exponent part; anything else is NaN (Number, unlike
parseFloat, must consume the whole string). -/
def jsNumExpTail (m : ℚ) : List Char → Option ℚ
  | [] => some m
  | 'e' :: r => jsNumExpSign m r
  | 'E' :: r => jsNumExpSign m r
  | _ => none

/-- Decimal Number literal: digits, optional dot and fraction digits,
optional exponent, full-string match, at least one mantissa digit. -/
def jsNumDec (l : List Char) : Option ℚ :=
  let ip := l.takeWhile Char.isDigit
  let r1 := l.dropWhile Char.isDigit
  match r1 with
  | '.' :: r2 =>
    let fp := r2.takeWhile Char.isDigit
    let r3 := r2.dropWhile Char.isDigit
    if ip = [] ∧ fp = [] then none
    else jsNumExpTail ((digitsVal ip : ℚ) + (digitsVal fp : ℚ) / 10 ^ fp.length) r3
  | _ => if ip = [] then none else jsNumExpTail ((digitsVal ip : ℚ)) r1

/-- Value of a digit character in radix notation. -/
def radixDigitVal (c : Char) : ℕ :=
  if c.isDigit then c.toNat - 48
  else if 'a' ≤ c ∧ c ≤ 'z' then c.toNat - 97 + 10
  else if 'A' ≤ c ∧ c ≤ 'Z' then c.toNat - 65 + 10
  else 0

/-- Digit test for a radix. -/
def isRadixDigit (radix : ℕ) (c : Char) : Bool :=
  (c.isDigit || ('a' ≤ c && c ≤ 'z') || ('A' ≤ c && c ≤ 'Z')) && radixDigitVal c < radix

/-- Value of a digit list in a radix. -/
def radixVal (radix : ℕ) (l : List Char) : ℕ :=
  l.foldl (fun a c => a * radix + radixDigitVal c) 0

/-- Unsigned Number literal: hex, octal and binary prefixes (only
valid unsigned), otherwise decimal. -/
def jsNumUnsigned (l : List Char) : Option ℚ :=
  match l with
  | '0' :: x :: rest =>
    if x = 'x' ∨ x = 'X' then
      if rest ≠ [] ∧ rest.all (isRadixDigit 16) then some ((radixVal 16 rest : ℕ) : ℚ) else none
    else if x = 'o' ∨ x = 'O' then
      if rest ≠ [] ∧ rest.all (isRadixDigit 8) then some ((radixVal 8 rest : ℕ) : ℚ) else none
    else if x = 'b' ∨ x = 'B' then
      if rest ≠ [] ∧ rest.all (isRadixDigit 2) then some ((radixVal 2 rest : ℕ) : ℚ) else none
    else jsNumDec l
  | _ => jsNumDec l

/-- Embedding of the JS Number conversion used by decodeCursor on the
timestamp part: trims, maps the empty string to 0, parses a signed
decimal or unsigned radix literal over exact rationals; none models
NaN.  The special Infinity literals are outside the rational model and
also map to none, a divergence no theorem below depends on (no decimal
rendering of a DB timestamp is an Infinity literal). -/
def jsNumber (s : String) : Option ℚ :=
  match trimList s.data with
  | [] => some 0
  | '-' :: rest => (jsNumDec rest).map Neg.neg
  | '+' :: rest => jsNumDec rest
  | l => jsNumUnsigned l

/-- Decoded cursor value: the createdAt number and the id string. -/
structure CursorVal where
  createdAt : ℚ
  id : String
  deriving DecidableEq

/-- Embedding of encodeCursor from dev.ts: the template literal
createdAt-pipe-id rendered to UTF-8 bytes and base64url. -/
def encodeCursor (id : String) (createdAt : ℤ) : String :=
  String.mk (b64Encode (utf8Encode ((jsIntToString createdAt).data ++ '|' :: id.data)))

/-- Embedding of decodeCursor from dev.ts: base64url decode, UTF-8
decode, split on the pipe; exactly two parts, a non-NaN Number
timestamp and a non-empty (truthy) id are required, anything else is
null.  The function is total: the JS try/catch never fires because
Buffer conversions do not throw on any input string. -/
def decodeCursor (cursor : String) : Option CursorVal :=
  match splitOnPipe (utf8Decode (b64Decode cursor.data)) with
  | [p0, p1] =>
    match jsNumber p0 with
    | none => none
    | some q => if p1 = "" then none else some ⟨q, p1⟩
  | _ => none

theorem char_ofNat_toNat (c : Char) : Char.ofNat c.toNat = c := by
  have hv : c.toNat.isValidChar := c.valid
  rw [Char.ofNat, dif_pos hv]
  apply Char.eq_of_val_eq
  rfl

theorem char_range (c : Char) :
    c.toNat < 55296 ∨ (57343 < c.toNat ∧ c.toNat < 1114112) := c.valid

theorem digitsVal_append (l : List Char) (d : Char) :
    digitsVal (l ++ [d]) = digitsVal l * 10 + (d.toNat - '0'.toNat) := by
  simp [digitsVal, List.foldl_append]

theorem digitChar_sub (d : ℕ) (h : d < 10) :
    (Nat.digitChar d).toNat - '0'.toNat = d := by
  interval_cases d <;> decide

theorem digitChar_isDigit (d : ℕ) (h : d < 10) : (Nat.digitChar d).isDigit = true := by
  interval_cases d <;> decide

theorem digitsVal_natToDigitsList (n : ℕ) : digitsVal (natToDigitsList n) = n := by
  induction n using Nat.strong_induction_on with
  | _ n ih =>
    rw [natToDigitsList]
    by_cases h : n < 10
    · rw [dif_pos h]
      have h2 := digitChar_sub n h
      simpa [digitsVal] using h2
    · rw [dif_neg h, digitsVal_append, ih (n / 10) (Nat.div_lt_self (by omega) (by omega)),
        digitChar_sub (n % 10) (Nat.mod_lt _ (by omega))]
      omega

theorem natToDigitsList_all_digit (n : ℕ) :
    ∀ c ∈ natToDigitsList n, c.isDigit = true := by
  induction n using Nat.strong_induction_on with
  | _ n ih =>
    rw [natToDigitsList]
    by_cases h : n < 10
    · rw [dif_pos h]
      intro c hc
      simp at hc
      subst hc
      exact digitChar_isDigit n h
    · rw [dif_neg h]
      intro c hc
      rw [List.mem_append] at hc
      cases hc with
      | inl hc => exact ih (n / 10) (Nat.div_lt_self (by omega) (by omega)) c hc
      | inr hc =>
        simp at hc
        subst hc
        exact digitChar_isDigit (n % 10) (Nat.mod_lt _ (by omega))

theorem natToDigitsList_ne_nil (n : ℕ) : natToDigitsList n ≠ [] := by
  rw [natToDigitsList]
  by_cases h : n < 10
  · rw [dif_pos h]
    simp
  · rw [dif_neg h]
    simp

theorem digit_not_ws (c : Char) (h : c.isDigit = true) : isJsWs c = false := by
  by_contra hw
  have hw2 : isJsWs c = true := by revert hw; cases isJsWs c <;> simp
  simp only [isJsWs, Bool.or_eq_true, decide_eq_true_eq] at hw2
  rcases hw2 with ((((((h1 | h1) | h1) | h1) | h1) | h1) | h1) | h1 <;> subst h1 <;> simp at h

theorem digit_ne_pipe (c : Char) (h : c.isDigit = true) : c ≠ '|' := by
  intro hc
  subst hc
  simp at h

theorem dropWhile_all_false {p : Char → Bool} {l : List Char}
    (h : ∀ c ∈ l, p c = false) : l.dropWhile p = l := by
  cases l with
  | nil => rfl
  | cons a t => simp [List.dropWhile_cons, h a (by simp)]

theorem trimList_all_not_ws (l : List Char) (h : ∀ c ∈ l, isJsWs c = false) :
    trimList l = l := by
  rw [trimList, dropWhile_all_false h, dropWhile_all_false (fun c hc => h c (by
    rw [List.mem_reverse] at hc
    exact hc)), List.reverse_reverse]

theorem utf8EncodeChar_lt256 (c : Char) : ∀ b ∈ utf8EncodeChar c, b < 256 := by
  have hr := char_range c
  rw [utf8EncodeChar]
  intro b hb
  by_cases h1 : c.toNat < 128
  · simp [h1] at hb
    omega
  · by_cases h2 : c.toNat < 2048
    · simp [h1, h2] at hb
      rcases hb with hb | hb <;> omega
    · by_cases h3 : c.toNat < 65536
      · simp [h1, h2, h3] at hb
        rcases hb with hb | hb | hb <;> omega
      · simp [h1, h2, h3] at hb
        rcases hb with hb | hb | hb | hb <;> omega

theorem utf8Encode_lt256 (l : List Char) : ∀ b ∈ utf8Encode l, b < 256 := by
  induction l with
  | nil => simp [utf8Encode]
  | cons c cs ih =>
    rw [utf8Encode]
    intro b hb
    rw [List.mem_append] at hb
    cases hb with
    | inl hb => exact utf8EncodeChar_lt256 c b hb
    | inr hb => exact ih b hb

theorem utf8Decode_cons (b : ℕ) (rest : List ℕ) :
    utf8Decode (b :: rest) = (utf8Step b rest).1 :: utf8Decode (utf8Step b rest).2 := by
  rw [utf8Decode]

theorem utf8Step_ascii (b : ℕ) (rest : List ℕ) (h : b < 128) :
    utf8Step b rest = (Char.ofNat b, rest) := by
  unfold utf8Step
  rw [if_pos h]

theorem utf8Step_two (b b1 : ℕ) (rest : List ℕ) (h1 : ¬b < 128)
    (h2 : 194 ≤ b ∧ b ≤ 223) (hc : isCont b1 = true) :
    utf8Step b (b1 :: rest) = (Char.ofNat ((b - 192) * 64 + (b1 - 128)), rest) := by
  unfold utf8Step
  rw [if_neg h1, if_pos h2]
  simp only [hc, if_true]

theorem utf8Step_three (b b1 b2 : ℕ) (rest : List ℕ) (h1 : ¬b < 128)
    (h2 : ¬(194 ≤ b ∧ b ≤ 223)) (h3 : 224 ≤ b ∧ b ≤ 239)
    (hc : (isCont b1 && isCont b2) = true)
    (hrange : 2048 ≤ (b - 224) * 4096 + (b1 - 128) * 64 + (b2 - 128) ∧
      ((b - 224) * 4096 + (b1 - 128) * 64 + (b2 - 128) < 55296 ∨
        57344 ≤ (b - 224) * 4096 + (b1 - 128) * 64 + (b2 - 128))) :
    utf8Step b (b1 :: b2 :: rest) =
      (Char.ofNat ((b - 224) * 4096 + (b1 - 128) * 64 + (b2 - 128)), rest) := by
  unfold utf8Step
  rw [if_neg h1, if_neg h2, if_pos h3]
  simp only [hc, if_true]
  rw [if_pos hrange]

theorem utf8Step_four (b b1 b2 b3 : ℕ) (rest : List ℕ) (h1 : ¬b < 128)
    (h2 : ¬(194 ≤ b ∧ b ≤ 223)) (h3 : ¬(224 ≤ b ∧ b ≤ 239)) (h4 : 240 ≤ b ∧ b ≤ 244)
    (hc : (isCont b1 && isCont b2 && isCont b3) = true)
    (hrange : 65536 ≤ (b - 240) * 262144 + (b1 - 128) * 4096 + (b2 - 128) * 64 + (b3 - 128) ∧
      (b - 240) * 262144 + (b1 - 128) * 4096 + (b2 - 128) * 64 + (b3 - 128) < 1114112) :
    utf8Step b (b1 :: b2 :: b3 :: rest) =
      (Char.ofNat ((b - 240) * 262144 + (b1 - 128) * 4096 + (b2 - 128) * 64 + (b3 - 128)),
        rest) := by
  unfold utf8Step
  rw [if_neg h1, if_neg h2, if_neg h3, if_pos h4]
  simp only [hc, if_true]
  rw [if_pos hrange]

theorem utf8Decode_encodeChar (c : Char) (rest : List ℕ) :
    utf8Decode (utf8EncodeChar c ++ rest) = c :: utf8Decode rest := by
  have hr := char_range c
  rw [utf8EncodeChar]
  by_cases h1 : c.toNat < 128
  · rw [if_pos h1]
    simp only [List.cons_append, List.nil_append]
    rw [utf8Decode_cons, utf8Step_ascii _ _ h1, char_ofNat_toNat]
  · by_cases h2 : c.toNat < 2048
    · have hcont : isCont (128 + c.toNat % 64) = true := by
        simp only [isCont, Bool.and_eq_true, decide_eq_true_eq]
        omega
      have hval : (192 + c.toNat / 64 - 192) * 64 + (128 + c.toNat % 64 - 128) = c.toNat := by
        omega
      rw [if_neg h1, if_pos h2]
      simp only [List.cons_append, List.nil_append]
      rw [utf8Decode_cons, utf8Step_two _ _ _ (by omega) (by constructor <;> omega) hcont]
      rw [hval, char_ofNat_toNat]
    · by_cases h3 : c.toNat < 65536
      · have hcont : (isCont (128 + c.toNat / 64 % 64) && isCont (128 + c.toNat % 64)) = true := by
          simp only [isCont, Bool.and_eq_true, decide_eq_true_eq]
          omega
        have hval : (224 + c.toNat / 4096 - 224) * 4096 + (128 + c.toNat / 64 % 64 - 128) * 64 +
            (128 + c.toNat % 64 - 128) = c.toNat := by
          omega
        rw [if_neg h1, if_neg h2, if_pos h3]
        simp only [List.cons_append, List.nil_append]
        rw [utf8Decode_cons,
          utf8Step_three _ _ _ _ (by omega) (by omega) (by constructor <;> omega) hcont
            (by rw [hval]; omega)]
        rw [hval, char_ofNat_toNat]
      · have h4 : c.toNat < 1114112 := by omega
        have hcont : (isCont (128 + c.toNat / 4096 % 64) && isCont (128 + c.toNat / 64 % 64) &&
            isCont (128 + c.toNat % 64)) = true := by
          simp only [isCont, Bool.and_eq_true, decide_eq_true_eq]
          omega
        have hval : (240 + c.toNat / 262144 - 240) * 262144 +
            (128 + c.toNat / 4096 % 64 - 128) * 4096 + (128 + c.toNat / 64 % 64 - 128) * 64 +
            (128 + c.toNat % 64 - 128) = c.toNat := by
          omega
        rw [if_neg h1, if_neg h2, if_neg h3]
        simp only [List.cons_append, List.nil_append]
        rw [utf8Decode_cons,
          utf8Step_four _ _ _ _ _ (by omega) (by omega) (by omega) (by constructor <;> omega)
            hcont (by rw [hval]; omega)]
        rw [hval, char_ofNat_toNat]

theorem utf8Decode_encode (l : List Char) : utf8Decode (utf8Encode l) = l := by
  induction l with
  | nil => rw [utf8Encode, utf8Decode]
  | cons c cs ih =>
    rw [utf8Encode, utf8Decode_encodeChar, ih]

theorem b64DecodeChar_b64Char : ∀ n : ℕ, n < 64 → b64DecodeChar (b64Char n) = some n := by
  decide

theorem b64Decode_encode (l : List ℕ) (h : ∀ b ∈ l, b < 256) :
    b64Decode (b64Encode l) = l := by
  induction l using b64Encode.induct with
  | case1 => rfl
  | case2 b0 =>
    have h0 : b0 < 256 := h b0 (by simp)
    have e1 : b64DecodeChar (b64Char (b0 / 4)) = some (b0 / 4) :=
      b64DecodeChar_b64Char _ (by omega)
    have e2 : b64DecodeChar (b64Char (b0 % 4 * 16)) = some (b0 % 4 * 16) :=
      b64DecodeChar_b64Char _ (by omega)
    rw [b64Encode]
    simp only [b64Decode, List.filterMap_cons, e1, e2, List.filterMap_nil]
    rw [b64SextetsToBytes]
    simp only [List.cons.injEq, and_true]
    omega
  | case3 b0 b1 =>
    have h0 : b0 < 256 := h b0 (by simp)
    have h1 : b1 < 256 := h b1 (by simp)
    have e1 : b64DecodeChar (b64Char (b0 / 4)) = some (b0 / 4) :=
      b64DecodeChar_b64Char _ (by omega)
    have e2 : b64DecodeChar (b64Char (b0 % 4 * 16 + b1 / 16)) = some (b0 % 4 * 16 + b1 / 16) :=
      b64DecodeChar_b64Char _ (by omega)
    have e3 : b64DecodeChar (b64Char (b1 % 16 * 4)) = some (b1 % 16 * 4) :=
      b64DecodeChar_b64Char _ (by omega)
    rw [b64Encode]
    simp only [b64Decode, List.filterMap_cons, e1, e2, e3, List.filterMap_nil]
    rw [b64SextetsToBytes]
    simp only [List.cons.injEq, and_true]
    constructor
    · omega
    · omega
  | case4 b0 b1 b2 rest ih =>
    have h0 : b0 < 256 := h b0 (by simp)
    have h1 : b1 < 256 := h b1 (by simp)
    have h2 : b2 < 256 := h b2 (by simp)
    have e1 : b64DecodeChar (b64Char (b0 / 4)) = some (b0 / 4) :=
      b64DecodeChar_b64Char _ (by omega)
    have e2 : b64DecodeChar (b64Char (b0 % 4 * 16 + b1 / 16)) = some (b0 % 4 * 16 + b1 / 16) :=
      b64DecodeChar_b64Char _ (by omega)
    have e3 : b64DecodeChar (b64Char (b1 % 16 * 4 + b2 / 64)) = some (b1 % 16 * 4 + b2 / 64) :=
      b64DecodeChar_b64Char _ (by omega)
    have e4 : b64DecodeChar (b64Char (b2 % 64)) = some (b2 % 64) :=
      b64DecodeChar_b64Char _ (by omega)
    have ih2 := ih (fun b hb => h b (by simp [hb]))
    rw [b64Encode]
    simp only [b64Decode, List.filterMap_cons, List.filterMap_append, e1, e2, e3, e4] at ih2 ⊢
    rw [b64SextetsToBytes]
    simp only [List.cons.injEq]
    refine ⟨by omega, by omega, by omega, ih2⟩

theorem splitOnPipe_ne_nil (l : List Char) : splitOnPipe l ≠ [] := by
  cases l with
  | nil => simp [splitOnPipe]
  | cons c rest =>
    rw [splitOnPipe]
    match h : splitOnPipe rest with
    | [] => simp
    | s :: ss =>
      by_cases hc : c = '|'
      · simp [hc]
      · simp [hc]

theorem splitOnPipe_no_pipe (l : List Char) (h : '|' ∉ l) : splitOnPipe l = [String.mk l] := by
  induction l with
  | nil => rfl
  | cons c rest ih =>
    have hc : c ≠ '|' := by
      intro hc
      exact h (by simp [hc])
    have hrest : '|' ∉ rest := by
      intro hr
      exact h (by simp [hr])
    rw [splitOnPipe, ih hrest]
    simp [hc]

theorem splitOnPipe_append (l1 l2 : List Char) (h : '|' ∉ l1) :
    splitOnPipe (l1 ++ '|' :: l2) = String.mk l1 :: splitOnPipe l2 := by
  induction l1 with
  | nil =>
    simp only [List.nil_append]
    rw [splitOnPipe]
    match hs : splitOnPipe l2 with
    | [] => exact absurd hs (splitOnPipe_ne_nil l2)
    | s :: ss => simp
  | cons c t ih =>
    have hc : c ≠ '|' := by
      intro hc
      exact h (by simp [hc])
    have ht : '|' ∉ t := by
      intro hr
      exact h (by simp [hr])
    simp only [List.cons_append]
    rw [splitOnPipe, ih ht]
    simp [hc]

theorem takeWhile_all {p : Char → Bool} {l : List Char} (h : ∀ c ∈ l, p c = true) :
    l.takeWhile p = l := by
  induction l with
  | nil => rfl
  | cons c t ih =>
    rw [List.takeWhile_cons, h c (by simp), ih (fun x hx => h x (by simp [hx]))]
    simp

theorem dropWhile_all {p : Char → Bool} {l : List Char} (h : ∀ c ∈ l, p c = true) :
    l.dropWhile p = [] := by
  induction l with
  | nil => rfl
  | cons c t ih =>
    rw [List.dropWhile_cons, h c (by simp)]
    simp only [if_true]
    exact ih (fun x hx => h x (by simp [hx]))

theorem jsNumDec_digits (l : List Char) (hl : l ≠ []) (hd : ∀ c ∈ l, c.isDigit = true) :
    jsNumDec l = some ((digitsVal l : ℚ)) := by
  have ht : l.takeWhile Char.isDigit = l := takeWhile_all hd
  have hdrop : l.dropWhile Char.isDigit = [] := dropWhile_all hd
  rw [jsNumDec]
  simp only [ht, hdrop]
  rw [if_neg hl, jsNumExpTail]

theorem string_mk_data (s : String) : String.mk s.data = s := rfl

theorem jsNumber_natDigits (m : ℕ) :
    jsNumber (String.mk (natToDigitsList m)) = some ((m : ℚ)) := by
  have hdig := natToDigitsList_all_digit m
  have hnws : ∀ c ∈ natToDigitsList m, isJsWs c = false :=
    fun c hc => digit_not_ws c (hdig c hc)
  rw [jsNumber]
  rw [trimList_all_not_ws _ hnws]
  have hdec : jsNumDec (natToDigitsList m) = some ((digitsVal (natToDigitsList m) : ℚ)) :=
    jsNumDec_digits _ (natToDigitsList_ne_nil m) hdig
  split
  · rename_i heq
    exact absurd heq (natToDigitsList_ne_nil m)
  · rename_i rest heq
    have : ('-').isDigit = true := by
      have := hdig '-' (by rw [heq]; simp)
      exact this
    simp at this
  · rename_i rest heq
    have : ('+').isDigit = true := by
      have := hdig '+' (by rw [heq]; simp)
      exact this
    simp at this
  · rw [jsNumUnsigned.eq_def]
    split
    · rename_i x rest heq
      have hx : x.isDigit = true := hdig x (by rw [heq]; simp)
      have hxx : ¬(x = 'x' ∨ x = 'X') := by
        rintro (rfl | rfl) <;> simp at hx
      have hxo : ¬(x = 'o' ∨ x = 'O') := by
        rintro (rfl | rfl) <;> simp at hx
      have hxb : ¬(x = 'b' ∨ x = 'B') := by
        rintro (rfl | rfl) <;> simp at hx
      rw [if_neg hxx, if_neg hxo, if_neg hxb, hdec, digitsVal_natToDigitsList]
    · rw [hdec, digitsVal_natToDigitsList]

theorem jsNumber_intToString (n : ℤ) : jsNumber (jsIntToString n) = some ((n : ℚ)) := by
  cases n with
  | ofNat m =>
    rw [jsIntToString]
    rw [jsNumber_natDigits]
    norm_num
  | negSucc m =>
    have hdig := natToDigitsList_all_digit (m + 1)
    have hnws : ∀ c ∈ '-' :: natToDigitsList (m + 1), isJsWs c = false := by
      intro c hc
      rw [List.mem_cons] at hc
      cases hc with
      | inl hc => subst hc; decide
      | inr hc => exact digit_not_ws c (hdig c hc)
    rw [jsIntToString, jsNumber]
    rw [trimList_all_not_ws _ hnws]
    show (jsNumDec (natToDigitsList (m + 1))).map Neg.neg = _
    rw [jsNumDec_digits _ (natToDigitsList_ne_nil (m + 1)) hdig, digitsVal_natToDigitsList]
    rw [show ((some ((m + 1 : ℕ) : ℚ)).map Neg.neg) = some (-((m + 1 : ℕ) : ℚ)) from rfl]
    rw [Int.cast_negSucc]

theorem jsIntToString_no_pipe (n : ℤ) : '|' ∉ (jsIntToString n).data := by
  cases n with
  | ofNat m =>
    rw [jsIntToString]
    intro hc
    exact digit_ne_pipe '|' (natToDigitsList_all_digit m '|' hc) rfl
  | negSucc m =>
    rw [jsIntToString]
    intro hc
    rw [show (String.mk ('-' :: natToDigitsList (m + 1))).data =
      '-' :: natToDigitsList (m + 1) from rfl, List.mem_cons] at hc
    cases hc with
    | inl hc => exact absurd hc.symm (by decide)
    | inr hc => exact digit_ne_pipe '|' (natToDigitsList_all_digit (m + 1) '|' hc) rfl

/-- C10: the cursor codec round-trips: for every non-empty id without
a pipe character and every integer timestamp (whose decimal rendering
Number parses back exactly), decoding the encoded cursor returns the
pair unchanged; decodeCursor itself is a total function (the JS
try/catch never fires since the Buffer conversions accept any
input). -/
theorem c10_cursor_roundtrip (id : String) (n : ℤ) (hne : id ≠ "") (hp : '|' ∉ id.data) :
    decodeCursor (encodeCursor id n) = some ⟨(n : ℚ), id⟩ := by
  rw [encodeCursor, decodeCursor]
  rw [show (String.mk (b64Encode (utf8Encode ((jsIntToString n).data ++ '|' :: id.data)))).data =
    b64Encode (utf8Encode ((jsIntToString n).data ++ '|' :: id.data)) from rfl]
  rw [b64Decode_encode _ (utf8Encode_lt256 _), utf8Decode_encode]
  rw [splitOnPipe_append _ _ (jsIntToString_no_pipe n), splitOnPipe_no_pipe _ hp]
  simp only [string_mk_data]
  rw [jsNumber_intToString]
  simp only [if_neg hne]

/-- C10 witness: round trip at the concrete pair (id a, timestamp 17). -/
theorem c10_witness : decodeCursor (encodeCursor "a" 17) = some ⟨(17 : ℚ), "a"⟩ :=
  c10_cursor_roundtrip "a" 17 (by decide) (by decide)

/-- A stored invoice row as the list endpoint sees it: the primary key
and the createdAt timestamp (an integer epoch value in the schema). -/
structure InvRow where
  id : String
  createdAt : ℤ
  deriving DecidableEq

/-- Byte-lexicographic strict comparison of strings as character
lists, modeling how SQLite compares TEXT values in ORDER BY and in
the lt(invoices.id, id) condition. -/
def strLtB : List Char → List Char → Bool
  | [], [] => false
  | [], _ :: _ => true
  | _ :: _, [] => false
  | a :: as, b :: bs =>
    if a.val < b.val then true
    else if b.val < a.val then false
    else strLtB as bs

/-- Row a sorts no later than row b under ORDER BY createdAt DESC,
id DESC from the findMany call in dev.ts. -/
def rowLeDesc (a b : InvRow) : Bool :=
  if a.createdAt = b.createdAt then !(strLtB a.id.data b.id.data)
  else decide (b.createdAt < a.createdAt)

/-- Insert one row into a list already sorted by rowLeDesc. -/
def insertRow (a : InvRow) : List InvRow → List InvRow
  | [] => [a]
  | b :: bs => if rowLeDesc a b then a :: b :: bs else b :: insertRow a bs

/-- Insertion sort realizing the ORDER BY clause of the list query. -/
def sortRows : List InvRow → List InvRow
  | [] => []
  | a :: as => insertRow a (sortRows as)

/-- The keyset condition pushed when a cursor decodes: strictly older
createdAt, or equal createdAt and strictly smaller id (the or, lt,
and, eq combination from dev.ts). The decoded timestamp is the
rational produced by the Number conversion in decodeCursor. -/
def cursorPredB (k : CursorVal) (r : InvRow) : Bool :=
  decide ((r.createdAt : ℚ) < k.createdAt) ||
    (decide ((r.createdAt : ℚ) = k.createdAt) && strLtB r.id.data k.id.data)

/-- One page of the list response: the returned rows after the pop,
and the nextCursor value (none models the JSON null). -/
structure ListPage where
  rows : List InvRow
  nextCursor : Option String
  deriving DecidableEq

/-- Embedding of the GET invoices list handler from dev.ts for a
request with only cursor and limit set: a present cursor that decodes
adds the keyset condition, an undecodable one is ignored; the query
sorts descending, applies the condition and fetches limit plus one
rows; when more than limit rows come back the LAST row is popped off
the response and becomes the nextCursor. -/
def listInvoices (store : List InvRow) (cursor : Option String) (limit : ℕ) : ListPage :=
  let pred : InvRow → Bool :=
    match cursor with
    | none => fun _ => true
    | some s =>
      match decodeCursor s with
      | none => fun _ => true
      | some k => cursorPredB k
  let rows := ((sortRows store).filter pred).take (limit + 1)
  if limit < rows.length then
    match rows.getLast? with
    | some last => ⟨rows.dropLast, some (encodeCursor last.id last.createdAt)⟩
    | none => ⟨rows, none⟩
  else ⟨rows, none⟩

/-- Drive the pagination loop the way the claim describes: call the
list endpoint, keep the returned rows, and follow nextCursor until it
is null; fuel bounds the recursion. -/
def runPagination (store : List InvRow) (limit : ℕ) : ℕ → Option String → List InvRow
  | 0, _ => []
  | fuel + 1, cursor =>
    let page := listInvoices store cursor limit
    match page.nextCursor with
    | none => page.rows
    | some c => page.rows ++ runPagination store limit fuel (some c)

/-- C1: REFUTED. With three invoices sharing one createdAt timestamp
(ids a, b, c) and page limit 1, walking the pagination to completion
returns ids c then a: the middle row b is stored but never returned,
because the handler pops the extra boundary row to build nextCursor
and the next page then filters strictly below that popped row. -/
theorem c1_pagination_omits_rows :
    (runPagination [⟨"a", 1⟩, ⟨"b", 1⟩, ⟨"c", 1⟩] 1 4 none).map InvRow.id = ["c", "a"] ∧
      (⟨"b", 1⟩ : InvRow) ∈ [(⟨"a", 1⟩ : InvRow), ⟨"b", 1⟩, ⟨"c", 1⟩] ∧
      (⟨"b", 1⟩ : InvRow) ∉ runPagination [⟨"a", 1⟩, ⟨"b", 1⟩, ⟨"c", 1⟩] 1 4 none := by
  with_unfolding_all decide

/-- C8: a cursor string that fails to decode is silently ignored: the
list handler returns exactly the same page as a request that passed
no cursor at all, for every store and limit. -/
theorem c8_bad_cursor_ignored (store : List InvRow) (limit : ℕ) (s : String)
    (h : decodeCursor s = none) :
    listInvoices store (some s) limit = listInvoices store none limit := by
  simp only [listInvoices, h]

/-- C8 witness: the string aGk is valid base64url (decoding to hi)
but has no pipe separator, so decodeCursor rejects it and the listing
matches the cursorless one on a concrete two-row store. -/
theorem c8_witness :
    decodeCursor "aGk" = none ∧
      listInvoices [⟨"a", 3⟩, ⟨"b", 5⟩] (some "aGk") 20 =
        listInvoices [⟨"a", 3⟩, ⟨"b", 5⟩] none 20 :=
  ⟨by with_unfolding_all decide,
    c8_bad_cursor_ignored [⟨"a", 3⟩, ⟨"b", 5⟩] 20 "aGk" (by with_unfolding_all decide)⟩
